import Mathlib

/-!
Verification of the tabular helper routines of mjhannul/visual-demographics
(src/functions.py) over a shallow embedding of pandas-style dataframes.

A dataframe is a list of column names plus a list of rows, each row a list
of cell values positionally aligned with the column names.  Cell values are
strings, exact numbers (the Python floats of the source hold small exact
values in every property under study, so they are modelled by rationals),
or the missing-value marker (NaN).

Fallible pandas operations (column lookups that raise KeyError, merges with
no common column, sorts over incomparable mixed types) are modelled with
Option, where none stands for the raised exception.

Row order of the outer merge inside join_data is modelled as matched rows
in left order followed by unmatched right rows; every property stated about
join_data below is insensitive to the row order of the merge result.
-/

/-- Cell value of a dataframe: a string, an exact number, or missing (NaN).
Join keys compare by plain equality, matching the factorised key matching of
pandas merge (where NaN keys match each other). -/
inductive Val where
  | str : String → Val
  | num : Rat → Val
  | na : Val
deriving DecidableEq, Repr

/-- Value of the cell of row r (aligned with cols) in column c, first
occurrence; missing-value marker if the column is absent. -/
def getCol : List String → List Val → String → Val
  | c :: cs, x :: xs, d => if c = d then x else getCol cs xs d
  | _, _, _ => Val.na

/-- Replace the cell of column c (first occurrence) by v. -/
def updateCol : List String → List Val → String → Val → List Val
  | c :: cs, x :: xs, d, v => if c = d then v :: xs else x :: updateCol cs xs d v
  | _, r, _, _ => r

/-- Remove the cell of column c (first occurrence) from a row. -/
def eraseCol : List String → List Val → String → List Val
  | c :: cs, x :: xs, d => if c = d then xs else x :: eraseCol cs xs d
  | _, r, _ => r

/-- Remove the first occurrence of column c from a column list. -/
def eraseColName : List String → String → List String
  | c :: cs, d => if c = d then cs else c :: eraseColName cs d
  | [], _ => []

/-- Row of missing values, one per column. -/
def naRow (cs : List String) : List Val := cs.map (fun _ => Val.na)

/-- Projection of a row to a selection of columns. -/
def projCols (cols : List String) (r : List Val) (sel : List String) : List Val :=
  sel.map (getCol cols r)

/-- Dataframe: column names plus rows of cells, positionally aligned. -/
structure DataFrame where
  cols : List String
  rows : List (List Val)
deriving DecidableEq, Repr

/-- Well-formed dataframe: every row has one cell per column. -/
def DataFrame.Wf (df : DataFrame) : Prop :=
  ∀ r ∈ df.rows, r.length = df.cols.length

/-- Number of cells, as in the pandas size attribute (rows times columns). -/
def DataFrame.size (df : DataFrame) : Nat := df.rows.length * df.cols.length

/-- Label-based access to one cell of a row, raising (none) when the column
is absent, as pandas Series.loc does. -/
def rowLoc (cols : List String) (r : List Val) (c : String) : Option Val :=
  if c ∈ cols then some (getCol cols r c) else none

/-- Values of one column, top to bottom; none when the column is absent. -/
def getColVals (df : DataFrame) (c : String) : Option (List Val) :=
  if c ∈ df.cols then some (df.rows.map (fun r => getCol df.cols r c)) else none

/-- Column assignment df[c] = vs: overwrite the column when present,
append it otherwise. -/
def setColVals (df : DataFrame) (c : String) (vs : List Val) : DataFrame :=
  if c ∈ df.cols then
    ⟨df.cols, (df.rows.zip vs).map (fun p => updateCol df.cols p.1 c p.2)⟩
  else
    ⟨df.cols ++ [c], (df.rows.zip vs).map (fun p => p.1 ++ [p.2])⟩

/-- Drop a column by name; none (KeyError) when absent. -/
def dropCol (df : DataFrame) (c : String) : Option DataFrame :=
  if c ∈ df.cols then
    some ⟨eraseColName df.cols c, df.rows.map (fun r => eraseCol df.cols r c)⟩
  else none

/-- Model of data["temp"].fillna(data[key], inplace=True): in every row
whose temp cell is missing, copy the key cell into temp. -/
def fillTemp (df : DataFrame) (key : String) : Option DataFrame :=
  if "temp" ∈ df.cols ∧ key ∈ df.cols then
    some ⟨df.cols, df.rows.map (fun r =>
      if getCol df.cols r "temp" = Val.na then
        updateCol df.cols r "temp" (getCol df.cols r key)
      else r)⟩
  else none

/-- Concatenation of the images of a list under a list-valued function. -/
def concatMap (f : α → List β) : List α → List β
  | [] => []
  | a :: l => f a ++ concatMap f l

/-- Model of pd.merge(l, r, how="outer"): join on all common columns; each
left row is combined with every key-matching right row (or padded with
missing values when none matches), and unmatched right rows are added with
missing values in the left-only columns.  Fails (MergeError) when the two
frames share no column. -/
def merge (l r : DataFrame) : Option DataFrame :=
  let common := l.cols.filter (fun c => c ∈ r.cols)
  let rOnly := r.cols.filter (fun c => c ∉ l.cols)
  if common = [] then none else
    some
      { cols := l.cols ++ rOnly
        rows :=
          concatMap (fun lr =>
            let ms := r.rows.filter
              (fun rr => projCols r.cols rr common = projCols l.cols lr common)
            if ms = [] then [lr ++ naRow rOnly]
            else ms.map (fun rr => lr ++ projCols r.cols rr rOnly)) l.rows
          ++ (r.rows.filter (fun rr => l.rows.all
                (fun lr => projCols l.cols lr common ≠ projCols r.cols rr common))).map
              (fun rr =>
                l.cols.map (fun c => if c ∈ common then getCol r.cols rr c else Val.na)
                ++ projCols r.cols rr rOnly) }

/-- Inclusive year range, as range(year_list[0], year_list[1] + 1). -/
def yearsList (y0 y1 : Nat) : List Nat :=
  (List.range (y1 + 1 - y0)).map (fun i => y0 + i)

/-- Monadic map over Option: the per-year column accesses of join_data,
failing as soon as one access fails. -/
def mapMo (f : α → Option β) : List α → Option (List β)
  | [] => some []
  | a :: l =>
    match f a with
    | none => none
    | some b => (mapMo f l).map (fun bs => b :: bs)

/-- Fold of a fallible step over a list, failing as soon as one step
fails. -/
def foldStep (f : DataFrame → α → Option DataFrame) : DataFrame → List α → Option DataFrame
  | d, [] => some d
  | d, a :: l =>
    match f d a with
    | none => none
    | some d2 => foldStep f d2 l

/-- Body of the inner loop of join_data for one row of one indicator table:
build the temporary one-country frame for every year of the range, outer
merge it into the accumulating panel, copy the added values into the temp
column, and drop the indicator column again. -/
def rowStep (key : String) (y0 y1 : Nat) (fcols : List String)
    (data : DataFrame) (row : List Val) : Option DataFrame := do
  let rowcode ← rowLoc fcols row "country_code"
  let years := yearsList y0 y1
  let vals ← mapMo (fun y => rowLoc fcols row (toString y)) years
  let dftemp : DataFrame :=
    ⟨["country_code", "year", key], (years.zip vals).map (fun p => [rowcode, Val.num p.1, p.2])⟩
  let merged ← merge data dftemp
  let filled ← fillTemp merged key
  dropCol filled key

/-- Body of the outer loop of join_data for one named indicator table:
initialise the temp column to missing, run the row loop, copy temp into the
indicator column, and drop temp. -/
def tableStep (y0 y1 : Nat) (data : DataFrame) (key : String) (frame : DataFrame) :
    Option DataFrame := do
  let d0 := setColVals data "temp" (data.rows.map (fun _ => Val.na))
  let d1 ← foldStep (rowStep key y0 y1 frame.cols) d0 frame.rows
  let tv ← getColVals d1 "temp"
  let d2 := setColVals d1 key tv
  dropCol d2 "temp"

/-- Model of join_data(dictionary, data, year_list): fold the per-table step
over the named indicator tables (a Python dict, hence keys are unique),
starting from the base panel. -/
def join_data (dictionary : List (String × DataFrame)) (data : DataFrame)
    (year_list : Nat × Nat) : Option DataFrame :=
  foldStep (fun d p => tableStep year_list.1 year_list.2 d p.1 p.2) data dictionary

/-- Model of country_to_code(country, dictionary): linear scan over the
mapping, first key whose value equals the name; none models Python None. -/
def country_to_code (country : String) : List (String × String) → Option String
  | [] => none
  | (key, item) :: rest => if item = country then some key else country_to_code country rest

/-- Model of code_to_country(country_code, dictionary): linear scan over the
mapping, value of the first matching key.  The argument is an Option so the
sentinel produced by a failed country_to_code lookup can flow through, as
None does in the Python source. -/
def code_to_country (country_code : Option String) : List (String × String) → Option String
  | [] => none
  | (key, item) :: rest =>
    if some key = country_code then some item else code_to_country country_code rest

/-- Outcome of the bar-chart renderer: a drawn chart (bars of country name
and statistic value) or the printed empty-dataset notice. -/
inductive BarPlotOutcome where
  | chart : List (Val × Val) → BarPlotOutcome
  | notice : String → BarPlotOutcome
deriving DecidableEq, Repr

/-- Model of plot_country_bars(data, year, stat): when the frame has a
nonzero number of cells, draw one bar per row (none models the KeyError
raised by the chart body when a needed column is absent); otherwise print
the empty-dataset notice and draw nothing. -/
def plot_country_bars (data : DataFrame) (year : Nat) (stat : String) :
    Option BarPlotOutcome :=
  if data.size ≠ 0 then
    if stat ∈ data.cols ∧ "country_name" ∈ data.cols then
      some (BarPlotOutcome.chart
        (data.rows.map (fun r => (getCol data.cols r "country_name", getCol data.cols r stat))))
    else none
  else some (BarPlotOutcome.notice "\n\nThe dataset is empty!")

/-- Total boolean comparison used to model sort_values: numbers by value,
strings lexicographically, missing values last (na_position="last"). -/
def valLe : Val → Val → Bool
  | _, Val.na => true
  | Val.na, _ => false
  | Val.num a, Val.num b => a ≤ b
  | Val.str a, Val.str b => a ≤ b
  | Val.num _, Val.str _ => true
  | Val.str _, Val.num _ => false

/-- The value is a number or missing. -/
def isNumOrNa : Val → Bool
  | Val.str _ => false
  | _ => true

/-- The value is a string or missing. -/
def isStrOrNa : Val → Bool
  | Val.num _ => false
  | _ => true

/-- A column is comparable when it does not mix strings with numbers;
sorting a mixed object column raises TypeError in pandas. -/
def colComparable (vs : List Val) : Bool :=
  vs.all isNumOrNa || vs.all isStrOrNa

/-- Model of df.sort_values(by=[c]): stable sort of the rows by the cells of
column c; none when the column is absent (KeyError) or incomparable. -/
def sortValues (df : DataFrame) (c : String) : Option DataFrame :=
  if c ∈ df.cols ∧ colComparable (df.rows.map (fun r => getCol df.cols r c)) then
    some ⟨df.cols,
      List.insertionSort (fun r1 r2 => valLe (getCol df.cols r1 c) (getCol df.cols r2 c) = true) df.rows⟩
  else none

/-- Frame with an index column moved out of the columns, the result shape of
set_index. -/
structure IndexedFrame where
  indexName : String
  index : List Val
  cols : List String
  rows : List (List Val)
deriving DecidableEq, Repr

/-- Rows of the panel whose country_code cell equals the requested code:
the row selection data[data.country_code == code]. -/
def matchedRows (code : String) (data : DataFrame) : List (List Val) :=
  data.rows.filter (fun r => getCol data.cols r "country_code" = Val.str code)

/-- Model of country_stats(country_code, data): keep the rows whose
country_code cell equals the requested code, sort them by the Year column,
and move Year into the index.  Each column access raises (none) when the
column is absent. -/
def country_stats (country_code : String) (data : DataFrame) : Option IndexedFrame := do
  let _ ← if "country_code" ∈ data.cols then some () else none
  let filtered : DataFrame := ⟨data.cols, matchedRows country_code data⟩
  let sorted ← sortValues filtered "Year"
  let _ ← if "Year" ∈ sorted.cols then some () else none
  some ⟨"Year",
    sorted.rows.map (fun r => getCol sorted.cols r "Year"),
    eraseColName sorted.cols "Year",
    sorted.rows.map (fun r => eraseCol sorted.cols r "Year")⟩

/-- Numeric content of a cell; none on a string (the TypeError of numeric
pandas arithmetic on object data). -/
def toNum : Val → Option Rat
  | Val.num q => some q
  | _ => none

/-- Model of wavg(group, metric_name, weight_name) for one group, given the
positions of the two columns resolved by the caller: elementwise product of
metric and weight summed, divided by the summed weight. -/
def wavg (cols : List String) (rows : List (List Val)) (metric_name weight_name : String) :
    Option Rat := do
  let ms ← mapMo (fun r => toNum (getCol cols r metric_name)) rows
  let ws ← mapMo (fun r => toNum (getCol cols r weight_name)) rows
  some (((ms.zip ws).map (fun p => p.1 * p.2)).sum / ws.sum)

/-- Model of df.dropna(subset=[c1, c2]): keep the rows where both cells are
present; none (KeyError) when either column is absent. -/
def dropna2 (df : DataFrame) (c1 c2 : String) : Option DataFrame :=
  if c1 ∈ df.cols ∧ c2 ∈ df.cols then
    some ⟨df.cols, df.rows.filter (fun r =>
      getCol df.cols r c1 ≠ Val.na ∧ getCol df.cols r c2 ≠ Val.na)⟩
  else none

/-- Group keys in order of first appearance, missing keys dropped as by
groupby(dropna=True).  The properties stated below are insensitive to the
order of the groups. -/
def groupKeys (ps : List (Val × Val)) : List (Val × Val) :=
  (ps.filter (fun p => p.1 ≠ Val.na ∧ p.2 ≠ Val.na)).foldl
    (fun acc k => if k ∈ acc then acc else acc ++ [k]) []

/-- Model of continent_stats(cont_code, data, stat): drop the rows with a
missing stat or Population cell, group by (cont_code, Year), compute the
population-weighted average of stat per group, and select the groups of the
requested continent code (KeyError, hence none, when it has no group). -/
def continent_stats (cont_code : String) (data : DataFrame) (stat : String) :
    Option (List (Val × Rat)) := do
  let data1 ← dropna2 data stat "Population"
  let _ ← if "cont_code" ∈ data1.cols ∧ "Year" ∈ data1.cols then some () else none
  let keys := groupKeys (data1.rows.map
    (fun r => (getCol data1.cols r "cont_code", getCol data1.cols r "Year")))
  let res ← mapMo (fun k =>
    (wavg data1.cols
      (data1.rows.filter (fun r =>
        getCol data1.cols r "cont_code" = k.1 ∧ getCol data1.cols r "Year" = k.2))
      stat "Population").map (fun q => (k, q))) keys
  let sel := res.filter (fun p => p.1.1 = Val.str cont_code)
  if sel = [] then none else some (sel.map (fun p => (p.1.2, p.2)))

/-- Key of a panel row: the pair of its country_code and year cells. -/
def rowKey (cols : List String) (r : List Val) : Val × Val :=
  (getCol cols r "country_code", getCol cols r "year")

/-- Specified cell of an indicator column after joining table f over the
given years: the value of the year column of the table row whose
country_code matches, missing when the table has no row for the country or
the year key is not a year of the range. -/
def specCell (f : DataFrame) (years : List Nat) (ck yk : Val) : Val :=
  match f.rows.find? (fun rf => getCol f.cols rf "country_code" = ck) with
  | none => Val.na
  | some rf =>
    match years.find? (fun (y : Nat) => yk = Val.num y) with
    | none => Val.na
    | some y => getCol f.cols rf (toString y)

/-- Transformation applied by one rowStep to an existing panel row: when the
row key matches the processed country for some year of the range, the value
of that year is copied into the temp cell if it was missing; otherwise the
row is unchanged. -/
def rowUpd (cols : List String) (code : Val) (years : List Nat) (v : Nat → Val)
    (r : List Val) : List Val :=
  match years.find? (fun (y : Nat) => rowKey cols r = (code, Val.num y)) with
  | some y => if getCol cols r "temp" = Val.na then updateCol cols r "temp" (v y) else r
  | none => r

/-- Row appended by one rowStep for a (country, year) key that the panel did
not yet contain: the key cells, the year value in the temp cell, missing
everywhere else. -/
def freshRow (cols : List String) (code : Val) (y : Nat) (val : Val) : List Val :=
  cols.map (fun c =>
    if c = "country_code" then code
    else if c = "year" then Val.num y
    else if c = "temp" then val
    else Val.na)

/-- Invariant of the row loop of join_data for one indicator table: after
the rows pfx of the table (columns fcols) have been folded into the
accumulating frame, the frame rows R satisfy: aligned lengths; unique
(country_code, year) keys; keys are exactly the initial keys plus one key
per processed table row and year of the range; the temp cell of every row
holds the value specified by the processed prefix of the table; and every
row either preserves an initial row on all the original columns or is a
fresh row (key not initially present) with missing values outside its key
cells. -/
def TInv (C1 : List String) (fcols : List String) (years : List Nat)
    (d0rows : List (List Val)) (pfx : List (List Val)) (R : List (List Val)) : Prop :=
  (∀ r ∈ R, r.length = (C1 ++ ["temp"]).length) ∧
  (R.map (rowKey (C1 ++ ["temp"]))).Nodup ∧
  (∀ kv, kv ∈ R.map (rowKey (C1 ++ ["temp"])) ↔
    kv ∈ d0rows.map (rowKey (C1 ++ ["temp"])) ∨
    ∃ rf ∈ pfx, ∃ y ∈ years, kv = (getCol fcols rf "country_code", Val.num y)) ∧
  (∀ r ∈ R, getCol (C1 ++ ["temp"]) r "temp" =
    specCell ⟨fcols, pfx⟩ years (getCol (C1 ++ ["temp"]) r "country_code")
      (getCol (C1 ++ ["temp"]) r "year")) ∧
  (∀ r ∈ R,
    (∃ r0 ∈ d0rows, ∀ c ∈ C1, getCol (C1 ++ ["temp"]) r c = getCol (C1 ++ ["temp"]) r0 c) ∨
    (rowKey (C1 ++ ["temp"]) r ∉ d0rows.map (rowKey (C1 ++ ["temp"])) ∧
      ∀ c ∈ C1, c ≠ "country_code" → c ≠ "year" → getCol (C1 ++ ["temp"]) r c = Val.na))

/-- Invariant of the outer loop of join_data: after the named indicator
tables P have been joined into the base panel B, the accumulated panel D
has the base columns followed by one column per table; aligned row lengths;
unique (country_code, year) keys; keys are exactly the base keys plus one
key per row of each joined table and year of the range; and every joined
indicator cell holds the value specified by its table (the matching table
row's year column, or missing when the table has no row for the country or
the year is outside the range). -/
def JInv (B : DataFrame) (P : List (String × DataFrame)) (years : List Nat)
    (D : DataFrame) : Prop :=
  D.cols = B.cols ++ P.map Prod.fst ∧
  (∀ r ∈ D.rows, r.length = D.cols.length) ∧
  (D.rows.map (rowKey D.cols)).Nodup ∧
  (∀ kv, kv ∈ D.rows.map (rowKey D.cols) ↔
    kv ∈ B.rows.map (rowKey B.cols) ∨
    ∃ p ∈ P, ∃ rf ∈ p.2.rows, ∃ y ∈ years,
      kv = (getCol p.2.cols rf "country_code", Val.num y)) ∧
  (∀ p ∈ P, ∀ r ∈ D.rows, getCol D.cols r p.1 =
    specCell p.2 years (getCol D.cols r "country_code") (getCol D.cols r "year"))

/-- Family of panels exercising every branch of continent_stats: two EU
rows in 2005 with full data, one EU row in 2006, one AS row, one EU row
with a missing metric and one with a missing population (both dropped). -/
def c3panel (m1 w1 m2 w2 m3 w3 m4 w4 w5 m6 : Rat) : DataFrame :=
  ⟨["cont_code", "Year", "Fertility", "Population"],
   [[Val.str "EU", Val.num 2005, Val.num m1, Val.num w1],
    [Val.str "EU", Val.num 2005, Val.num m2, Val.num w2],
    [Val.str "EU", Val.num 2006, Val.num m3, Val.num w3],
    [Val.str "AS", Val.num 2005, Val.num m4, Val.num w4],
    [Val.str "EU", Val.num 2005, Val.na, Val.num w5],
    [Val.str "EU", Val.num 2005, Val.num m6, Val.na]]⟩

/-- The value is a number. -/
def isNum : Val → Bool
  | Val.num _ => true
  | _ => false

/-- Strict numeric order on cell values: both cells are numbers and the
first is smaller. -/
def valNumLt (a b : Val) : Prop :=
  ∃ qa qb, a = Val.num qa ∧ b = Val.num qb ∧ qa < qb

/-! ### Basic lemmas about the row primitives -/

theorem getCol_nil_row (cs : List String) (c : String) : getCol cs [] c = Val.na := by
  cases cs <;> rfl

theorem getCol_cons (a : String) (cs : List String) (x : Val) (xs : List Val) (c : String) :
    getCol (a :: cs) (x :: xs) c = if a = c then x else getCol cs xs c := rfl

theorem getCol_append_left {c : String} {cs1 : List String} (cs2 : List String)
    {r1 : List Val} (r2 : List Val) (h : c ∈ cs1) (hl : r1.length = cs1.length) :
    getCol (cs1 ++ cs2) (r1 ++ r2) c = getCol cs1 r1 c := by
  induction cs1 generalizing r1 with
  | nil => simp at h
  | cons a cs ih =>
    cases r1 with
    | nil => simp at hl
    | cons x xs =>
      simp only [List.cons_append, getCol_cons]
      by_cases hac : a = c
      · simp [hac]
      · rw [if_neg hac, if_neg hac]
        exact ih ((List.mem_cons.mp h).resolve_left (fun hc => hac hc.symm))
          (by simpa using hl)

theorem getCol_append_right {c : String} {cs1 : List String} (cs2 : List String)
    {r1 : List Val} (r2 : List Val) (h : c ∉ cs1) (hl : r1.length = cs1.length) :
    getCol (cs1 ++ cs2) (r1 ++ r2) c = getCol cs2 r2 c := by
  induction cs1 generalizing r1 with
  | nil =>
    cases r1 with
    | nil => simp
    | cons x xs => simp at hl
  | cons a cs ih =>
    cases r1 with
    | nil => simp at hl
    | cons x xs =>
      simp only [List.cons_append, getCol_cons]
      rw [if_neg (fun hac => h (List.mem_cons.mpr (Or.inl hac.symm)))]
      exact ih (fun hc => h (List.mem_cons_of_mem a hc)) (by simpa using hl)

theorem getCol_naRow (cs : List String) (c : String) : getCol cs (naRow cs) c = Val.na := by
  induction cs with
  | nil => rfl
  | cons a l ih =>
    simp only [naRow, List.map_cons, getCol_cons]
    by_cases hac : a = c
    · simp [hac]
    · rw [if_neg hac]; exact ih

theorem length_naRow (cs : List String) : (naRow cs).length = cs.length := by
  simp [naRow]

theorem length_updateCol (cs : List String) (r : List Val) (c : String) (v : Val) :
    (updateCol cs r c v).length = r.length := by
  induction cs generalizing r with
  | nil => cases r <;> rfl
  | cons a l ih =>
    cases r with
    | nil => rfl
    | cons x xs =>
      rw [updateCol]
      by_cases hac : a = c
      · simp [hac]
      · simp only [if_neg hac, List.length_cons, ih]

theorem getCol_updateCol_ne {d c : String} (cs : List String) (r : List Val) (v : Val)
    (h : d ≠ c) : getCol cs (updateCol cs r c v) d = getCol cs r d := by
  induction cs generalizing r with
  | nil => cases r <;> rfl
  | cons a l ih =>
    cases r with
    | nil => rfl
    | cons x xs =>
      rw [updateCol]
      by_cases hac : a = c
      · subst hac
        rw [if_pos rfl, getCol_cons, getCol_cons, if_neg (fun had => h had.symm),
          if_neg (fun had => h had.symm)]
      · rw [if_neg hac, getCol_cons, getCol_cons]
        by_cases had : a = d
        · simp [had]
        · rw [if_neg had, if_neg had, ih]

theorem getCol_updateCol_self {c : String} {cs : List String} {r : List Val} (v : Val)
    (h : c ∈ cs) (hl : r.length = cs.length) :
    getCol cs (updateCol cs r c v) c = v := by
  induction cs generalizing r with
  | nil => simp at h
  | cons a l ih =>
    cases r with
    | nil => simp at hl
    | cons x xs =>
      rw [updateCol]
      by_cases hac : a = c
      · rw [if_pos hac, getCol_cons, if_pos hac]
      · rw [if_neg hac, getCol_cons, if_neg hac]
        exact ih ((List.mem_cons.mp h).resolve_left (fun hc => hac hc.symm))
          (by simpa using hl)

theorem updateCol_self {c : String} {cs : List String} {r : List Val} {v : Val}
    (h : getCol cs r c = v) : updateCol cs r c v = r := by
  induction cs generalizing r with
  | nil => cases r <;> rfl
  | cons a l ih =>
    cases r with
    | nil => rfl
    | cons x xs =>
      rw [getCol_cons] at h
      rw [updateCol]
      by_cases hac : a = c
      · rw [if_pos hac] at h ⊢; rw [h]
      · rw [if_neg hac] at h ⊢; rw [ih h]

theorem updateCol_append_left {c : String} {cs1 : List String} (cs2 : List String)
    {r1 : List Val} (r2 : List Val) (v : Val) (h : c ∈ cs1) (hl : r1.length = cs1.length) :
    updateCol (cs1 ++ cs2) (r1 ++ r2) c v = updateCol cs1 r1 c v ++ r2 := by
  induction cs1 generalizing r1 with
  | nil => simp at h
  | cons a cs ih =>
    cases r1 with
    | nil => simp at hl
    | cons x xs =>
      simp only [List.cons_append, updateCol]
      by_cases hac : a = c
      · simp [hac]
      · rw [if_neg hac, if_neg hac]
        exact congrArg (fun t => x :: t)
          (ih ((List.mem_cons.mp h).resolve_left (fun hc => hac hc.symm)) (by simpa using hl))

theorem updateCol_append_right {c : String} {cs1 : List String} (cs2 : List String)
    {r1 : List Val} (r2 : List Val) (v : Val) (h : c ∉ cs1) (hl : r1.length = cs1.length) :
    updateCol (cs1 ++ cs2) (r1 ++ r2) c v = r1 ++ updateCol cs2 r2 c v := by
  induction cs1 generalizing r1 with
  | nil =>
    cases r1 with
    | nil => simp
    | cons x xs => simp at hl
  | cons a cs ih =>
    cases r1 with
    | nil => simp at hl
    | cons x xs =>
      simp only [List.cons_append, updateCol]
      rw [if_neg (fun hac => h (List.mem_cons.mpr (Or.inl hac.symm)))]
      exact congrArg (fun t => x :: t)
        (ih (fun hc => h (List.mem_cons_of_mem a hc)) (by simpa using hl))

theorem eraseColName_append_of_not_mem {c : String} {cs1 : List String} (cs2 : List String)
    (h : c ∉ cs1) : eraseColName (cs1 ++ cs2) c = cs1 ++ eraseColName cs2 c := by
  induction cs1 with
  | nil => simp
  | cons a cs ih =>
    simp only [List.cons_append, eraseColName]
    rw [if_neg (fun hac => h (List.mem_cons.mpr (Or.inl hac.symm)))]
    exact congrArg (fun t => a :: t) (ih (fun hc => h (List.mem_cons_of_mem a hc)))

theorem eraseCol_append_of_not_mem {c : String} {cs1 : List String} (cs2 : List String)
    {r1 : List Val} (r2 : List Val) (h : c ∉ cs1) (hl : r1.length = cs1.length) :
    eraseCol (cs1 ++ cs2) (r1 ++ r2) c = r1 ++ eraseCol cs2 r2 c := by
  induction cs1 generalizing r1 with
  | nil =>
    cases r1 with
    | nil => simp
    | cons x xs => simp at hl
  | cons a cs ih =>
    cases r1 with
    | nil => simp at hl
    | cons x xs =>
      simp only [List.cons_append, eraseCol]
      rw [if_neg (fun hac => h (List.mem_cons.mpr (Or.inl hac.symm)))]
      exact congrArg (fun t => x :: t)
        (ih (fun hc => h (List.mem_cons_of_mem a hc)) (by simpa using hl))

theorem getCol_eraseCol_ne {d c : String} (cs : List String) (r : List Val) (h : d ≠ c) :
    getCol (eraseColName cs c) (eraseCol cs r c) d = getCol cs r d := by
  induction cs generalizing r with
  | nil => cases r <;> rfl
  | cons a l ih =>
    cases r with
    | nil =>
      have he : eraseCol (a :: l) [] c = [] := rfl
      rw [eraseColName, he, getCol_nil_row, getCol_nil_row]
    | cons x xs =>
      rw [eraseColName, eraseCol]
      by_cases hac : a = c
      · subst hac
        rw [if_pos rfl, if_pos rfl, getCol_cons, if_neg (fun had => h had.symm)]
      · rw [if_neg hac, if_neg hac, getCol_cons, getCol_cons]
        by_cases had : a = d
        · simp [had]
        · rw [if_neg had, if_neg had, ih]

theorem length_eraseCol {c : String} (cs : List String) (r : List Val)
    (hl : r.length = cs.length) : (eraseCol cs r c).length = (eraseColName cs c).length := by
  induction cs generalizing r with
  | nil => cases r with
    | nil => rfl
    | cons x xs => simp at hl
  | cons a l ih =>
    cases r with
    | nil => simp at hl
    | cons x xs =>
      rw [eraseColName, eraseCol]
      by_cases hac : a = c
      · rw [if_pos hac, if_pos hac]; simpa using hl
      · rw [if_neg hac, if_neg hac, List.length_cons, List.length_cons,
          ih xs (by simpa using hl)]

/-! ### Lemmas about concatMap, mapMo and foldStep -/

theorem concatMap_nil (f : α → List β) : concatMap f [] = [] := rfl

theorem concatMap_cons (f : α → List β) (a : α) (l : List α) :
    concatMap f (a :: l) = f a ++ concatMap f l := rfl

theorem concatMap_singleton (f : α → β) (l : List α) :
    concatMap (fun a => [f a]) l = l.map f := by
  induction l with
  | nil => rfl
  | cons a l ih => rw [concatMap_cons, List.map_cons, ih]; rfl

theorem mapMo_eq_some_map (f : α → Option β) (g : α → β) (l : List α)
    (h : ∀ a ∈ l, f a = some (g a)) : mapMo f l = some (l.map g) := by
  induction l with
  | nil => rfl
  | cons a l ih =>
    rw [mapMo, h a (List.mem_cons_self a l), ih (fun b hb => h b (List.mem_cons_of_mem a hb))]
    rfl

theorem mapMo_eq_none (f : α → Option β) (l : List α) (a : α) (ha : a ∈ l)
    (hfa : f a = none) : mapMo f l = none := by
  induction l with
  | nil => simp at ha
  | cons b l ih =>
    rw [mapMo]
    rcases List.mem_cons.mp ha with hab | ha'
    · rw [← hab, hfa]
    · cases hfb : f b
      · rfl
      · rw [ih ha']; rfl

theorem foldStep_nil (f : DataFrame → α → Option DataFrame) (d : DataFrame) :
    foldStep f d [] = some d := rfl

theorem foldStep_cons (f : DataFrame → α → Option DataFrame) (d : DataFrame) (a : α)
    (l : List α) :
    foldStep f d (a :: l) =
      match f d a with
      | none => none
      | some d2 => foldStep f d2 l := rfl

theorem zip_map_self (l : List α) (g : α → β) (h : α × β → γ) :
    (l.zip (l.map g)).map h = l.map (fun a => h (a, g a)) := by
  induction l with
  | nil => rfl
  | cons a l ih => simp [ih]

/-! ### Claims C5, C6, C7, C8 -/

theorem country_to_code_mem {name : String} {M : List (String × String)} {k : String}
    (h : country_to_code name M = some k) : k ∈ M.map Prod.fst := by
  induction M with
  | nil => simp [country_to_code] at h
  | cons p rest ih =>
    obtain ⟨key, item⟩ := p
    rw [country_to_code] at h
    by_cases hv : item = name
    · rw [if_pos hv, Option.some_inj] at h
      simp [h]
    · rw [if_neg hv] at h
      exact List.mem_cons_of_mem _ (ih h)

theorem country_to_code_eq_some_of_mem {name : String} {M : List (String × String)}
    (h : name ∈ M.map Prod.snd) : ∃ k, country_to_code name M = some k := by
  induction M with
  | nil => simp at h
  | cons p rest ih =>
    obtain ⟨key, item⟩ := p
    rw [country_to_code]
    by_cases hv : item = name
    · exact ⟨key, if_pos hv⟩
    · rw [if_neg hv]
      refine ih ?_
      rcases List.mem_cons.mp h with h1 | h2
      · exact absurd h1.symm hv
      · exact h2

/-- C6: join_data applied with an empty collection of indicator tables is the
identity on the base panel: the outer loop never runs, so the base panel is
returned unchanged, same rows and columns, for every base panel and year
range. -/
theorem claim_C6_join_empty_identity (data : DataFrame) (year_list : Nat × Nat) :
    join_data [] data year_list = some data := rfl

/-- C5: round-trip of the lookups.  For every mapping (unique keys, as in a
Python dict) and every name among its values, looking up the code of the
name and then the name of that code returns the original name. -/
theorem claim_C5_lookup_roundtrip (M : List (String × String)) (name : String)
    (hnd : (M.map Prod.fst).Nodup) (hmem : name ∈ M.map Prod.snd) :
    code_to_country (country_to_code name M) M = some name := by
  induction M with
  | nil => simp at hmem
  | cons p rest ih =>
    obtain ⟨key, item⟩ := p
    rw [country_to_code]
    by_cases hv : item = name
    · rw [if_pos hv, code_to_country, if_pos rfl, hv]
    · rw [if_neg hv]
      have hmem' : name ∈ rest.map Prod.snd := by
        rcases List.mem_cons.mp hmem with h1 | h2
        · exact absurd h1.symm hv
        · exact h2
      have hnd' : (rest.map Prod.fst).Nodup := (List.nodup_cons.mp hnd).2
      obtain ⟨k, hk⟩ := country_to_code_eq_some_of_mem hmem'
      have hkmem : k ∈ rest.map Prod.fst := country_to_code_mem hk
      have hkey : key ∉ rest.map Prod.fst := (List.nodup_cons.mp hnd).1
      rw [hk, code_to_country,
        if_neg (fun he => hkey (by rw [Option.some_inj.mp he]; exact hkmem)), ← hk]
      exact ih hnd' hmem'

/-- Witness for C5 at a concrete two-entry mapping. -/
theorem claim_C5_lookup_roundtrip_witness :
    ((([("FI", "Finland"), ("SE", "Sweden")] : List (String × String)).map Prod.fst).Nodup ∧
      "Sweden" ∈ ([("FI", "Finland"), ("SE", "Sweden")] : List (String × String)).map Prod.snd) ∧
    code_to_country (country_to_code "Sweden" [("FI", "Finland"), ("SE", "Sweden")])
      [("FI", "Finland"), ("SE", "Sweden")] = some "Sweden" :=
  ⟨⟨by decide, by decide⟩,
    claim_C5_lookup_roundtrip [("FI", "Finland"), ("SE", "Sweden")] "Sweden"
      (by decide) (by decide)⟩

/-- C8: country_to_code returns the first key, in mapping iteration order,
whose value equals the name (the find?-characterisation), and the none
sentinel when no value matches; code_to_country returns the value of the
first matching key (the unique one in a dict) and the none sentinel when
the key is absent; a failed country_to_code lookup (sentinel none) passed to
code_to_country again yields the sentinel rather than an error. -/
theorem claim_C8_lookup_sentinels (name code : String) (M : List (String × String)) :
    country_to_code name M = (M.find? (fun p => p.2 = name)).map Prod.fst ∧
    code_to_country (some code) M = (M.find? (fun p => p.1 = code)).map Prod.snd ∧
    code_to_country none M = none := by
  refine ⟨?_, ?_, ?_⟩
  · induction M with
    | nil => rfl
    | cons p rest ih =>
      obtain ⟨key, item⟩ := p
      rw [country_to_code]
      by_cases hv : item = name
      · rw [if_pos hv, List.find?_cons_of_pos _ (by simpa using hv)]; rfl
      · rw [if_neg hv, List.find?_cons_of_neg _ (by simpa using hv), ih]
  · induction M with
    | nil => rfl
    | cons p rest ih =>
      obtain ⟨key, item⟩ := p
      rw [code_to_country]
      by_cases hv : key = code
      · rw [if_pos (by rw [hv]), List.find?_cons_of_pos _ (by simpa using hv)]; rfl
      · rw [if_neg (fun he => hv (Option.some_inj.mp he)),
          List.find?_cons_of_neg _ (by simpa using hv), ih]
  · induction M with
    | nil => rfl
    | cons p rest ih =>
      obtain ⟨key, item⟩ := p
      rw [code_to_country, if_neg (fun he => Option.noConfusion he), ih]

/-- C7: the bar-chart renderer on an empty table (zero cells) prints the
visible empty-dataset notice, raises no error, and never takes the
chart-drawing branch. -/
theorem claim_C7_bar_chart_empty (data : DataFrame) (year : Nat) (stat : String)
    (h : data.size = 0) :
    plot_country_bars data year stat = some (BarPlotOutcome.notice "\n\nThe dataset is empty!") ∧
    ∀ bars, plot_country_bars data year stat ≠ some (BarPlotOutcome.chart bars) := by
  constructor
  · simp [plot_country_bars, h]
  · intro bars
    simp [plot_country_bars, h]

/-- Witness for C7 at a concrete empty frame. -/
theorem claim_C7_bar_chart_empty_witness :
    (⟨["country_name", "Population"], []⟩ : DataFrame).size = 0 ∧
    (plot_country_bars ⟨["country_name", "Population"], []⟩ 2000 "Population" =
        some (BarPlotOutcome.notice "\n\nThe dataset is empty!") ∧
      ∀ bars, plot_country_bars ⟨["country_name", "Population"], []⟩ 2000 "Population" ≠
        some (BarPlotOutcome.chart bars)) :=
  ⟨by decide, claim_C7_bar_chart_empty _ 2000 "Population" (by decide)⟩
/-! ### Claim C4: country_stats -/

theorem valLe_total (a b : Val) : valLe a b = true ∨ valLe b a = true := by
  cases a <;> cases b <;> simp [valLe] <;> exact le_total _ _

theorem valLe_trans {a b c : Val} (h1 : valLe a b = true) (h2 : valLe b c = true) :
    valLe a c = true := by
  cases a <;> cases b <;> cases c <;> simp_all [valLe] <;> exact le_trans h1 h2

theorem isNum_num {v : Val} (h : isNum v = true) : ∃ q, v = Val.num q := by
  cases v with
  | num q => exact ⟨q, rfl⟩
  | str s => simp [isNum] at h
  | na => simp [isNum] at h

/-- C4 counterexample: on a panel with a country_code column but no Year
column (the very shape join_data produces) and no matching row,
country_stats raises (none) instead of returning an empty result, so the
claim as stated over every panel fails. -/
theorem claim_C4_counterexample :
    country_stats "FIN" ⟨["country_code"], []⟩ = none := by decide

/-- C4 amended: for every panel that has country_code and Year columns and
whose rows matching the requested code carry numeric, pairwise-distinct
Year cells, country_stats returns (without error) exactly the matching rows
sorted and indexed by year, the index strictly ascending, and an empty
result when no row matches. -/
theorem claim_C4_country_stats (code : String) (data : DataFrame)
    (hcc : "country_code" ∈ data.cols) (hY : "Year" ∈ data.cols)
    (hnum : ∀ r ∈ matchedRows code data, isNum (getCol data.cols r "Year") = true)
    (hdist : ((matchedRows code data).map (fun r => getCol data.cols r "Year")).Nodup) :
    ∃ res, country_stats code data = some res ∧
      res.indexName = "Year" ∧
      (res.index.zip res.rows).Perm ((matchedRows code data).map
        (fun r => (getCol data.cols r "Year", eraseCol data.cols r "Year"))) ∧
      res.index.Pairwise valNumLt ∧
      (matchedRows code data = [] → res.index = [] ∧ res.rows = []) := by
  have hnum' : ∀ r ∈ matchedRows code data, ∃ q, getCol data.cols r "Year" = Val.num q :=
    fun r hr => isNum_num (hnum r hr)
  have hdist' : (matchedRows code data).Pairwise
      (fun r1 r2 => getCol data.cols r1 "Year" ≠ getCol data.cols r2 "Year") :=
    List.pairwise_map.mp hdist
  set m := matchedRows code data with hm
  set rel : List Val → List Val → Prop := fun r1 r2 =>
    valLe (getCol data.cols r1 "Year") (getCol data.cols r2 "Year") = true with hrel
  have hcomp : colComparable (m.map (fun r => getCol data.cols r "Year")) = true := by
    rw [colComparable, Bool.or_eq_true]
    left
    rw [List.all_eq_true]
    intro v hv
    obtain ⟨r, hr, hrv⟩ := List.mem_map.mp hv
    obtain ⟨q, hq⟩ := hnum' r hr
    rw [← hrv, hq]; rfl
  have hsv : sortValues ⟨data.cols, m⟩ "Year" =
      some ⟨data.cols, List.insertionSort rel m⟩ := by
    rw [sortValues]
    exact if_pos ⟨hY, hcomp⟩
  have hperm : (List.insertionSort rel m).Perm m := List.perm_insertionSort rel m
  refine ⟨⟨"Year", (List.insertionSort rel m).map (fun r => getCol data.cols r "Year"),
    eraseColName data.cols "Year",
    (List.insertionSort rel m).map (fun r => eraseCol data.cols r "Year")⟩, ?_, rfl, ?_, ?_, ?_⟩
  · rw [country_stats]
    simp only [Option.bind_eq_bind]
    rw [if_pos hcc]
    simp only [Option.some_bind]
    rw [← hm, hsv]
    simp only [Option.some_bind]
    rw [if_pos hY]
  · rw [List.zip_map']
    exact hperm.map _
  · have hsorted : (List.insertionSort rel m).Pairwise rel := by
      haveI : IsTotal (List Val) rel := ⟨fun a b => valLe_total _ _⟩
      haveI : IsTrans (List Val) rel := ⟨fun a b c => valLe_trans⟩
      exact List.sorted_insertionSort rel m
    have hne : (List.insertionSort rel m).Pairwise
        (fun r1 r2 => getCol data.cols r1 "Year" ≠ getCol data.cols r2 "Year") := by
      refine (hperm.pairwise_iff ?_).mpr hdist'
      exact fun h12 h => h12 h.symm
    have hnum2 : ∀ r ∈ List.insertionSort rel m, ∃ q, getCol data.cols r "Year" = Val.num q :=
      fun r hr => hnum' r (hperm.mem_iff.mp hr)
    rw [List.pairwise_map]
    refine (hsorted.and hne).imp_of_mem ?_
    intro r1 r2 h1 h2 hr
    obtain ⟨q1, hq1⟩ := hnum2 r1 h1
    obtain ⟨q2, hq2⟩ := hnum2 r2 h2
    refine ⟨q1, q2, hq1, hq2, ?_⟩
    have hle : valLe (Val.num q1) (Val.num q2) = true := by rw [← hq1, ← hq2]; exact hr.1
    have hne12 : q1 ≠ q2 := by
      intro he
      exact hr.2 (by rw [hq1, hq2, he])
    have hq12 : q1 ≤ q2 := by simpa [valLe] using hle
    exact lt_of_le_of_ne hq12 hne12
  · intro hm0
    rw [hm0]
    constructor <;> rfl

/-- Witness for the amended C4 at a concrete three-row panel with two
matching rows out of order. -/
theorem claim_C4_country_stats_witness :
    ("country_code" ∈ (⟨["country_code", "Year", "v"],
        [[Val.str "X", Val.num 2002, Val.num 1],
         [Val.str "Y", Val.num 2000, Val.num 2],
         [Val.str "X", Val.num 2000, Val.num 3]]⟩ : DataFrame).cols ∧
      "Year" ∈ (⟨["country_code", "Year", "v"],
        [[Val.str "X", Val.num 2002, Val.num 1],
         [Val.str "Y", Val.num 2000, Val.num 2],
         [Val.str "X", Val.num 2000, Val.num 3]]⟩ : DataFrame).cols) ∧
    (∃ res, country_stats "X" ⟨["country_code", "Year", "v"],
        [[Val.str "X", Val.num 2002, Val.num 1],
         [Val.str "Y", Val.num 2000, Val.num 2],
         [Val.str "X", Val.num 2000, Val.num 3]]⟩ = some res ∧
      res.indexName = "Year" ∧
      (res.index.zip res.rows).Perm ((matchedRows "X" ⟨["country_code", "Year", "v"],
        [[Val.str "X", Val.num 2002, Val.num 1],
         [Val.str "Y", Val.num 2000, Val.num 2],
         [Val.str "X", Val.num 2000, Val.num 3]]⟩).map
          (fun r => (getCol ["country_code", "Year", "v"] r "Year",
            eraseCol ["country_code", "Year", "v"] r "Year"))) ∧
      res.index.Pairwise valNumLt ∧
      (matchedRows "X" ⟨["country_code", "Year", "v"],
        [[Val.str "X", Val.num 2002, Val.num 1],
         [Val.str "Y", Val.num 2000, Val.num 2],
         [Val.str "X", Val.num 2000, Val.num 3]]⟩ = [] → res.index = [] ∧ res.rows = [])) :=
  ⟨⟨by decide, by decide⟩,
    claim_C4_country_stats "X" _ (by decide) (by decide) (by decide) (by decide)⟩

/-! ### Claim C3: continent_stats -/

/-- C3: continent_stats drops every row with a missing metric or Population
cell, groups the rest by (continent code, year), and returns the
population-weighted mean of the metric per group of the requested
continent: on the c3panel family (arbitrary numeric values) the 2005 EU
group of two countries yields (m1*w1 + m2*w2)/(w1 + w2) and the singleton
2006 group (m3*w3)/w3, the AS group being excluded by the selection and the
two incomplete rows being dropped; in particular populations [2, 8] with
metric values [10, 20] yield 18 (and the 2006 singleton its own value). -/
theorem claim_C3_continent_stats (m1 w1 m2 w2 m3 w3 m4 w4 w5 m6 : Rat) :
    continent_stats "EU" (c3panel m1 w1 m2 w2 m3 w3 m4 w4 w5 m6) "Fertility" =
      some [(Val.num 2005, (m1 * w1 + m2 * w2) / (w1 + w2)),
        (Val.num 2006, (m3 * w3) / w3)] ∧
    continent_stats "EU" (c3panel 10 2 20 8 30 5 40 3 9 50) "Fertility" =
      some [(Val.num 2005, 18), (Val.num 2006, 30)] := by
  constructor
  · simp [continent_stats, c3panel, dropna2, groupKeys, wavg, mapMo, getCol, toNum]
  · simp [continent_stats, c3panel, dropna2, groupKeys, wavg, mapMo, getCol, toNum]
    norm_num

/-! ### Claim C9: missing year columns make join_data raise -/

theorem mem_of_mem_eraseColName {c d : String} {cs : List String}
    (h : c ∈ eraseColName cs d) : c ∈ cs := by
  induction cs with
  | nil => simp [eraseColName] at h
  | cons a l ih =>
    rw [eraseColName] at h
    by_cases had : a = d
    · rw [if_pos had] at h
      exact List.mem_cons_of_mem a h
    · rw [if_neg had] at h
      rcases List.mem_cons.mp h with h1 | h2
      · exact h1 ▸ List.mem_cons_self a l
      · exact List.mem_cons_of_mem a (ih h2)

theorem rowStep_none_of_missing_year {key : String} {y0 y1 : Nat} {fcols : List String}
    {data : DataFrame} {row : List Val} (y : Nat) (hy : y ∈ yearsList y0 y1)
    (hcol : toString y ∉ fcols) : rowStep key y0 y1 fcols data row = none := by
  rw [rowStep]
  simp only [Option.bind_eq_bind]
  cases hcc : rowLoc fcols row "country_code" with
  | none => rfl
  | some rowcode =>
    simp only [Option.some_bind]
    rw [mapMo_eq_none _ _ y hy (by rw [rowLoc]; exact if_neg hcol)]
    rfl

theorem tableStep_none_of_missing_year {y0 y1 : Nat} {data : DataFrame} {key : String}
    {frame : DataFrame} (y : Nat) (hy : y ∈ yearsList y0 y1)
    (hcol : toString y ∉ frame.cols) (hrows : frame.rows ≠ []) :
    tableStep y0 y1 data key frame = none := by
  rw [tableStep]
  simp only [Option.bind_eq_bind]
  cases hr : frame.rows with
  | nil => exact absurd hr hrows
  | cons r rest =>
    rw [foldStep_cons, rowStep_none_of_missing_year y hy hcol]
    rfl

/-- C9 (implicit precondition of join_data): whenever some indicator table
with at least one row is missing the column of some year of the inclusive
range, join_data raises a lookup error (none) instead of returning a panel
with that indicator left unset. -/
theorem claim_C9_missing_year_column (dictionary : List (String × DataFrame))
    (data : DataFrame) (y0 y1 : Nat) (key : String) (frame : DataFrame) (y : Nat)
    (hmem : (key, frame) ∈ dictionary) (hrows : frame.rows ≠ [])
    (hy : y ∈ yearsList y0 y1) (hcol : toString y ∉ frame.cols) :
    join_data dictionary data (y0, y1) = none := by
  induction dictionary generalizing data with
  | nil => simp at hmem
  | cons p rest ih =>
    rw [join_data, foldStep_cons]
    rcases List.mem_cons.mp hmem with h1 | h2
    · rw [show tableStep y0 y1 data p.1 p.2 = none from by
        rw [← h1] at hmem ⊢
        exact tableStep_none_of_missing_year y hy hcol hrows]
    · cases ht : tableStep y0 y1 data p.1 p.2 with
      | none => rfl
      | some d2 => exact ih d2 h2

/-- Witness for C9: a one-row table whose only column is country_code. -/
theorem claim_C9_witness :
    (("ind", (⟨["country_code"], [[Val.str "AAA"]]⟩ : DataFrame)) ∈
        [("ind", (⟨["country_code"], [[Val.str "AAA"]]⟩ : DataFrame))] ∧
      (⟨["country_code"], [[Val.str "AAA"]]⟩ : DataFrame).rows ≠ [] ∧
      2000 ∈ yearsList 2000 2000 ∧
      toString 2000 ∉ (⟨["country_code"], [[Val.str "AAA"]]⟩ : DataFrame).cols) ∧
    join_data [("ind", ⟨["country_code"], [[Val.str "AAA"]]⟩)]
      ⟨["country_code", "year"], []⟩ (2000, 2000) = none :=
  ⟨⟨by decide, by decide, by decide, by decide⟩,
    claim_C9_missing_year_column _ _ 2000 2000 "ind" ⟨["country_code"], [[Val.str "AAA"]]⟩ 2000
      (by decide) (by decide) (by decide) (by decide)⟩

/-! ### Claim C10: schema mismatch between joiner and extractors -/

theorem merge_cols {l r m : DataFrame} (h : merge l r = some m) :
    m.cols = l.cols ++ r.cols.filter (fun c => c ∉ l.cols) := by
  rw [merge] at h
  split at h
  · exact absurd h (by simp)
  · exact (congrArg DataFrame.cols (Option.some_inj.mp h)).symm

theorem fillTemp_cols {df d2 : DataFrame} {key : String} (h : fillTemp df key = some d2) :
    d2.cols = df.cols := by
  rw [fillTemp] at h
  split at h
  · exact (congrArg DataFrame.cols (Option.some_inj.mp h)).symm
  · exact absurd h (by simp)

theorem dropCol_cols {df d2 : DataFrame} {c : String} (h : dropCol df c = some d2) :
    d2.cols = eraseColName df.cols c := by
  rw [dropCol] at h
  split at h
  · exact (congrArg DataFrame.cols (Option.some_inj.mp h)).symm
  · exact absurd h (by simp)

theorem rowStep_cols_absent {key : String} {y0 y1 : Nat} {fcols : List String}
    {data : DataFrame} {row : List Val} {d2 : DataFrame}
    (h : rowStep key y0 y1 fcols data row = some d2) {c : String}
    (hc : c ∉ data.cols) (hk : c ≠ key) (hcc : c ≠ "country_code") (hyr : c ≠ "year") :
    c ∉ d2.cols := by
  rw [rowStep] at h
  simp only [Option.bind_eq_bind, Option.bind_eq_some] at h
  obtain ⟨rowcode, h1, vals, h2, merged, h3, filled, h4, h5⟩ := h
  intro hmem
  rw [dropCol_cols h5] at hmem
  have hmem2 := mem_of_mem_eraseColName hmem
  rw [fillTemp_cols h4, merge_cols h3] at hmem2
  rcases List.mem_append.mp hmem2 with hin | hin
  · exact hc hin
  · have hin2 := List.mem_of_mem_filter hin
    simp only [List.mem_cons, List.not_mem_nil, or_false] at hin2
    rcases hin2 with h | h | h
    · exact hcc h
    · exact hyr h
    · exact hk h

theorem foldStep_rowStep_absent {key : String} {y0 y1 : Nat} {fcols : List String}
    {c : String} (hcc : c ≠ "country_code") (hyr : c ≠ "year") (hk : c ≠ key) :
    ∀ (rows : List (List Val)) (d : DataFrame), c ∉ d.cols →
      ∀ {d1 : DataFrame}, foldStep (rowStep key y0 y1 fcols) d rows = some d1 → c ∉ d1.cols := by
  intro rows
  induction rows with
  | nil =>
    intro d hd d1 h
    rw [foldStep_nil, Option.some_inj] at h
    exact h ▸ hd
  | cons r rest ih =>
    intro d hd d1 h
    rw [foldStep_cons] at h
    cases hr : rowStep key y0 y1 fcols d r with
    | none => rw [hr] at h; exact absurd h (by simp)
    | some dd =>
      rw [hr] at h
      exact ih dd (rowStep_cols_absent hr hd hk hcc hyr) h

theorem setColVals_cols_absent {df : DataFrame} {c key : String} (vs : List Val)
    (hc : c ∉ df.cols) (hk : c ≠ key) : c ∉ (setColVals df key vs).cols := by
  rw [setColVals]
  split
  · exact hc
  · intro hmem
    rcases List.mem_append.mp hmem with h | h
    · exact hc h
    · simp only [List.mem_singleton] at h
      exact hk h

theorem tableStep_cols_absent {y0 y1 : Nat} {data : DataFrame} {key : String}
    {frame : DataFrame} {d2 : DataFrame} (h : tableStep y0 y1 data key frame = some d2)
    {c : String} (hc : c ∉ data.cols) (hk : c ≠ key) (ht : c ≠ "temp")
    (hcc : c ≠ "country_code") (hyr : c ≠ "year") : c ∉ d2.cols := by
  rw [tableStep] at h
  simp only [Option.bind_eq_bind, Option.bind_eq_some] at h
  obtain ⟨d1, h1, tv, h2, h3⟩ := h
  have hd0 : c ∉ (setColVals data "temp" (data.rows.map (fun _ => Val.na))).cols :=
    setColVals_cols_absent _ hc ht
  have hd1 : c ∉ d1.cols := foldStep_rowStep_absent hcc hyr hk frame.rows _ hd0 h1
  have hd2 : c ∉ (setColVals d1 key tv).cols := setColVals_cols_absent _ hd1 hk
  intro hmem
  rw [dropCol_cols h3] at hmem
  exact hd2 (mem_of_mem_eraseColName hmem)

theorem join_data_cols_absent {dictionary : List (String × DataFrame)} {data : DataFrame}
    {yl : Nat × Nat} {out : DataFrame} (h : join_data dictionary data yl = some out)
    {c : String} (hc : c ∉ data.cols) (ht : c ≠ "temp") (hcc : c ≠ "country_code")
    (hyr : c ≠ "year") (hkeys : ∀ p ∈ dictionary, p.1 ≠ c) : c ∉ out.cols := by
  induction dictionary generalizing data with
  | nil =>
    rw [join_data, foldStep_nil, Option.some_inj] at h
    exact h ▸ hc
  | cons p rest ih =>
    rw [join_data, foldStep_cons] at h
    cases hts : tableStep yl.1 yl.2 data p.1 p.2 with
    | none => rw [hts] at h; exact absurd h (by simp)
    | some dd =>
      rw [hts] at h
      have hcdd : c ∉ dd.cols :=
        tableStep_cols_absent hts hc
          (fun he => hkeys p (List.mem_cons_self p rest) he.symm) ht hcc hyr
      exact ih h hcdd (fun q hq => hkeys q (List.mem_cons_of_mem p hq))

theorem country_stats_none_of_no_Year {code : String} {data : DataFrame}
    (h : "Year" ∉ data.cols) : country_stats code data = none := by
  rw [country_stats]
  simp only [Option.bind_eq_bind]
  by_cases hcc : "country_code" ∈ data.cols
  · rw [if_pos hcc]
    simp only [Option.some_bind]
    rw [show sortValues ⟨data.cols, matchedRows code data⟩ "Year" = none from by
      rw [sortValues]; exact if_neg (fun hx => h hx.1)]
    rfl
  · rw [if_neg hcc]
    rfl

theorem continent_stats_none_of_no_cont_code {cc stat : String} {data : DataFrame}
    (h : "cont_code" ∉ data.cols) : continent_stats cc data stat = none := by
  rw [continent_stats]
  simp only [Option.bind_eq_bind]
  by_cases hd : stat ∈ data.cols ∧ "Population" ∈ data.cols
  · rw [show dropna2 data stat "Population" = some ⟨data.cols, data.rows.filter (fun r =>
        getCol data.cols r stat ≠ Val.na ∧ getCol data.cols r "Population" ≠ Val.na)⟩ from by
      rw [dropna2]; exact if_pos hd]
    simp only [Option.some_bind]
    rw [if_neg (fun hx => h hx.1)]
    rfl
  · rw [show dropna2 data stat "Population" = none from by rw [dropna2]; exact if_neg hd]
    rfl

/-- C10: schema mismatch between the joiner and the extractors.  A panel
produced by join_data from a base without Year and cont_code columns (and
with no indicator named after them) carries the year only under the
lower-case name year, so country_stats and continent_stats both fail with a
missing-column error (none) on it, for every requested code and metric. -/
theorem claim_C10_schema_mismatch (dictionary : List (String × DataFrame))
    (data : DataFrame) (yl : Nat × Nat) (out : DataFrame)
    (hjoin : join_data dictionary data yl = some out)
    (hY : "Year" ∉ data.cols) (hYk : ∀ p ∈ dictionary, p.1 ≠ "Year")
    (hC : "cont_code" ∉ data.cols) (hCk : ∀ p ∈ dictionary, p.1 ≠ "cont_code") :
    (∀ code, country_stats code out = none) ∧
    (∀ cc stat, continent_stats cc out stat = none) := by
  have hYout : "Year" ∉ out.cols :=
    join_data_cols_absent hjoin hY (by decide) (by decide) (by decide)
      (fun p hp he => hYk p hp he)
  have hCout : "cont_code" ∉ out.cols :=
    join_data_cols_absent hjoin hC (by decide) (by decide) (by decide)
      (fun p hp he => hCk p hp he)
  exact ⟨fun code => country_stats_none_of_no_Year hYout,
    fun cc stat => continent_stats_none_of_no_cont_code hCout⟩

/-- Witness for C10: one indicator table joined into the canonical empty
base panel; both extractors fail on the resulting panel. -/
theorem claim_C10_witness :
    (join_data [("Population", ⟨["country_code", "2000"], [[Val.str "AAA", Val.num 5]]⟩)]
        ⟨["country_code", "year"], []⟩ (2000, 2000) =
        some ⟨["country_code", "year", "Population"],
          [[Val.str "AAA", Val.num 2000, Val.num 5]]⟩ ∧
      "Year" ∉ (⟨["country_code", "year"], []⟩ : DataFrame).cols ∧
      "cont_code" ∉ (⟨["country_code", "year"], []⟩ : DataFrame).cols) ∧
    ((∀ code, country_stats code ⟨["country_code", "year", "Population"],
        [[Val.str "AAA", Val.num 2000, Val.num 5]]⟩ = none) ∧
      (∀ cc stat, continent_stats cc ⟨["country_code", "year", "Population"],
        [[Val.str "AAA", Val.num 2000, Val.num 5]]⟩ stat = none)) :=
  ⟨⟨by decide, by decide, by decide⟩,
    claim_C10_schema_mismatch
      [("Population", ⟨["country_code", "2000"], [[Val.str "AAA", Val.num 5]]⟩)]
      ⟨["country_code", "year"], []⟩ (2000, 2000)
      ⟨["country_code", "year", "Population"], [[Val.str "AAA", Val.num 2000, Val.num 5]]⟩
      (by decide) (by decide) (by decide) (by decide) (by decide)⟩

/-! ### Machinery for the join_data claims C1 and C2 -/

theorem map_filter_comm (f : α → β) (p : β → Bool) (l : List α) :
    (l.map f).filter p = (l.filter (fun a => p (f a))).map f := by
  induction l with
  | nil => rfl
  | cons a l ih =>
    simp only [List.map_cons, List.filter_cons]
    by_cases hp : p (f a) = true
    · rw [if_pos hp, if_pos hp, List.map_cons, ih]
    · rw [if_neg hp, if_neg hp, ih]

theorem filter_eq_singleton {l : List Nat} (hl : l.Nodup) {y0 : Nat} (hy0 : y0 ∈ l)
    {p : Nat → Bool} (hp : ∀ y ∈ l, (p y = true ↔ y = y0)) : l.filter p = [y0] := by
  induction l with
  | nil => simp at hy0
  | cons a l ih =>
    rw [List.filter_cons]
    rcases List.mem_cons.mp hy0 with h1 | h2
    · subst h1
      rw [if_pos ((hp y0 (List.mem_cons_self y0 l)).mpr rfl)]
      have : l.filter p = [] := by
        rw [List.filter_eq_nil_iff]
        intro y hy hpy
        have := (hp y (List.mem_cons_of_mem y0 hy)).mp hpy
        subst this
        exact (List.nodup_cons.mp hl).1 hy
      rw [this]
    · have hne : a ≠ y0 := by
        intro he
        subst he
        exact (List.nodup_cons.mp hl).1 h2
      rw [if_neg (by
        intro hpa
        exact hne ((hp a (List.mem_cons_self a l)).mp hpa))]
      exact ih (List.nodup_cons.mp hl).2 h2 (fun y hy => hp y (List.mem_cons_of_mem a hy))

theorem yearsList_nodup (y0 y1 : Nat) : (yearsList y0 y1).Nodup := by
  rw [yearsList]
  exact (List.nodup_range _).map (fun a b h => Nat.add_left_cancel h)

theorem num_nat_inj {a b : Nat} (h : Val.num a = Val.num b) : a = b := by
  have h2 : (a : Rat) = (b : Rat) := Val.num.inj h
  exact_mod_cast h2

theorem merge_spec {l r : DataFrame} {rOnly : List String}
    (hro : r.cols.filter (fun c => c ∉ l.cols) = rOnly)
    (hne : l.cols.filter (fun c => c ∈ r.cols) ≠ []) :
    merge l r = some ⟨l.cols ++ rOnly,
      concatMap (fun lr =>
        let ms := r.rows.filter (fun rr =>
          projCols r.cols rr (l.cols.filter (fun c => c ∈ r.cols)) =
          projCols l.cols lr (l.cols.filter (fun c => c ∈ r.cols)))
        if ms = [] then [lr ++ naRow rOnly]
        else ms.map (fun rr => lr ++ projCols r.cols rr rOnly)) l.rows
      ++ (r.rows.filter (fun rr => l.rows.all (fun lr =>
            projCols l.cols lr (l.cols.filter (fun c => c ∈ r.cols)) ≠
            projCols r.cols rr (l.cols.filter (fun c => c ∈ r.cols))))).map
          (fun rr =>
            l.cols.map (fun c =>
              if c ∈ l.cols.filter (fun c2 => c2 ∈ r.cols) then getCol r.cols rr c else Val.na)
            ++ projCols r.cols rr rOnly)⟩ := by
  rw [merge, if_neg hne, hro]

theorem getCol_map_self {c : String} {cs : List String} (f : String → Val) (h : c ∈ cs) :
    getCol cs (cs.map f) c = f c := by
  induction cs with
  | nil => simp at h
  | cons a l ih =>
    rw [List.map_cons, getCol_cons]
    by_cases hac : a = c
    · rw [if_pos hac, hac]
    · rw [if_neg hac]
      exact ih ((List.mem_cons.mp h).resolve_left (fun hc => hac hc.symm))

theorem concatMap_congr {f g : α → List β} {l : List α} (h : ∀ a ∈ l, f a = g a) :
    concatMap f l = concatMap g l := by
  induction l with
  | nil => rfl
  | cons a l ih =>
    rw [concatMap_cons, concatMap_cons, h a (List.mem_cons_self a l),
      ih (fun b hb => h b (List.mem_cons_of_mem a hb))]

theorem projCols_match_iff {C1 : List String} {key : String}
    (hkey : key ∉ C1) (hkt : key ≠ "temp")
    (hcc : "country_code" ∈ C1) (hyr : "year" ∈ C1)
    (lr : List Val) (code yv vv : Val) :
    (projCols ["country_code", "year", key] [code, yv, vv]
        ((C1 ++ ["temp"]).filter (fun c => c ∈ ["country_code", "year", key])) =
      projCols (C1 ++ ["temp"]) lr
        ((C1 ++ ["temp"]).filter (fun c => c ∈ ["country_code", "year", key]))) ↔
    (getCol (C1 ++ ["temp"]) lr "country_code" = code ∧
      getCol (C1 ++ ["temp"]) lr "year" = yv) := by
  have hkeyC2 : key ∉ C1 ++ ["temp"] := by
    intro h
    rcases List.mem_append.mp h with h | h
    · exact hkey h
    · exact hkt (List.mem_singleton.mp h)
  have hsub : ∀ c ∈ (C1 ++ ["temp"]).filter (fun c => c ∈ ["country_code", "year", key]),
      c = "country_code" ∨ c = "year" := by
    intro c hcf
    obtain ⟨hc2, hcd⟩ := List.mem_filter.mp hcf
    rcases (by simpa using hcd : c = "country_code" ∨ c = "year" ∨ c = key) with h | h | h
    · exact Or.inl h
    · exact Or.inr h
    · rw [h] at hc2
      exact absurd hc2 hkeyC2
  have hccm : "country_code" ∈ (C1 ++ ["temp"]).filter
      (fun c => c ∈ ["country_code", "year", key]) :=
    List.mem_filter.mpr ⟨List.mem_append_left _ hcc, by simp⟩
  have hyrm : "year" ∈ (C1 ++ ["temp"]).filter
      (fun c => c ∈ ["country_code", "year", key]) :=
    List.mem_filter.mpr ⟨List.mem_append_left _ hyr, by simp⟩
  rw [projCols, projCols, List.map_inj_left]
  constructor
  · intro h
    constructor
    · have := h "country_code" hccm
      rw [getCol_cons, if_pos rfl] at this
      exact this.symm
    · have := h "year" hyrm
      rw [getCol_cons, if_neg (by decide), getCol_cons, if_pos rfl] at this
      exact this.symm
  · intro ⟨h1, h2⟩ c hcm
    rcases hsub c hcm with h | h
    · subst h
      rw [getCol_cons, if_pos rfl, h1]
    · subst h
      rw [getCol_cons, if_neg (by decide), getCol_cons, if_pos rfl, h2]

theorem fillTemp_eq {df : DataFrame} {key : String} (h1 : "temp" ∈ df.cols)
    (h2 : key ∈ df.cols) :
    fillTemp df key = some ⟨df.cols, df.rows.map (fun r =>
      if getCol df.cols r "temp" = Val.na then
        updateCol df.cols r "temp" (getCol df.cols r key)
      else r)⟩ := by
  rw [fillTemp]
  exact if_pos ⟨h1, h2⟩

theorem dropCol_eq {df : DataFrame} {c : String} (h : c ∈ df.cols) :
    dropCol df c = some ⟨eraseColName df.cols c, df.rows.map (fun r => eraseCol df.cols r c)⟩ := by
  rw [dropCol]
  exact if_pos h

theorem rowStep_spec {C1 : List String} {key : String} {y0 y1 : Nat} {fcols : List String}
    {drows : List (List Val)} {row : List Val}
    (hwf : ∀ r ∈ drows, r.length = (C1 ++ ["temp"]).length)
    (htemp : "temp" ∉ C1) (hkey : key ∉ C1) (hkt : key ≠ "temp")
    (hkc : key ≠ "country_code") (hky : key ≠ "year")
    (hcc : "country_code" ∈ C1) (hyr : "year" ∈ C1)
    (hfc : "country_code" ∈ fcols) (hfy : ∀ y ∈ yearsList y0 y1, toString y ∈ fcols) :
    rowStep key y0 y1 fcols ⟨C1 ++ ["temp"], drows⟩ row = some ⟨C1 ++ ["temp"],
      drows.map (rowUpd (C1 ++ ["temp"]) (getCol fcols row "country_code") (yearsList y0 y1)
        (fun y => getCol fcols row (toString y)))
      ++ ((yearsList y0 y1).filter (fun (y : Nat) =>
            (getCol fcols row "country_code", Val.num y) ∉
              drows.map (rowKey (C1 ++ ["temp"])))).map
          (fun y => freshRow (C1 ++ ["temp"]) (getCol fcols row "country_code") y
            (getCol fcols row (toString y)))⟩ := by
  set code := getCol fcols row "country_code" with hcode
  set v : Nat → Val := fun y => getCol fcols row (toString y) with hv
  have hccC2 : "country_code" ∈ C1 ++ ["temp"] := List.mem_append_left _ hcc
  have hyrC2 : "year" ∈ C1 ++ ["temp"] := List.mem_append_left _ hyr
  have htempC2 : "temp" ∈ C1 ++ ["temp"] :=
    List.mem_append_right _ (List.mem_singleton.mpr rfl)
  have hkeyC2 : key ∉ C1 ++ ["temp"] := by
    intro h
    rcases List.mem_append.mp h with h | h
    · exact hkey h
    · exact hkt (List.mem_singleton.mp h)
  rw [rowStep]
  simp only [Option.bind_eq_bind]
  rw [show rowLoc fcols row "country_code" = some code from by rw [rowLoc]; exact if_pos hfc]
  simp only [Option.some_bind]
  rw [show mapMo (fun y => rowLoc fcols row (toString y)) (yearsList y0 y1) =
      some ((yearsList y0 y1).map v) from
    mapMo_eq_some_map _ v _ (fun y hy => by rw [rowLoc]; exact if_pos (hfy y hy))]
  simp only [Option.some_bind]
  rw [zip_map_self]
  rw [merge_spec
    (show (["country_code", "year", key].filter (fun c => c ∉ C1 ++ ["temp"])) = [key] from by
      rw [List.filter_cons, List.filter_cons, List.filter_cons, List.filter_nil,
        if_neg (by simp [hccC2]), if_neg (by simp [hyrC2]), if_pos (by simp [hkeyC2])])
    (show ((C1 ++ ["temp"]).filter (fun c => c ∈ ["country_code", "year", key])) ≠ [] from
      List.ne_nil_of_mem (List.mem_filter.mpr ⟨hccC2, by simp⟩))]
  simp only [Option.some_bind]
  rw [fillTemp_eq (List.mem_append_left _ htempC2)
    (List.mem_append_right _ (List.mem_singleton.mpr rfl))]
  simp only [Option.some_bind]
  rw [dropCol_eq (List.mem_append_right _ (List.mem_singleton.mpr rfl))]
  simp only [Option.some_inj, DataFrame.mk.injEq, List.map_map]
  constructor
  · show eraseColName ((C1 ++ ["temp"]) ++ [key]) key = C1 ++ ["temp"]
    rw [eraseColName_append_of_not_mem _ hkeyC2]
    show (C1 ++ ["temp"]) ++ (if (key = key) then [] else key :: eraseColName [] key) = C1 ++ ["temp"]
    rw [if_pos rfl, List.append_nil]
  · rw [List.map_append]
    have hlen : ∀ lr ∈ drows, lr.length = (C1 ++ ["temp"]).length := hwf
    have hproj : ∀ (yy : Nat),
        projCols ["country_code", "year", key] [code, Val.num yy, v yy] [key] = [v yy] := by
      intro yy
      rw [projCols, List.map_cons, List.map_nil, getCol_cons,
        if_neg (fun h => hkc h.symm), getCol_cons, if_neg (fun h => hky h.symm),
        getCol_cons, if_pos rfl]
    refine congrArg₂ (fun (a b : List (List Val)) => a ++ b) ?_ ?_
    · -- matched part: one output row per input row
      rw [show concatMap (fun lr =>
          if (List.map (fun (a : Nat) => [code, Val.num a, v a]) (yearsList y0 y1)).filter
              (fun rr => projCols ["country_code", "year", key] rr
                  ((C1 ++ ["temp"]).filter (fun c => c ∈ ["country_code", "year", key])) =
                projCols (C1 ++ ["temp"]) lr
                  ((C1 ++ ["temp"]).filter (fun c => c ∈ ["country_code", "year", key]))) = []
          then [lr ++ naRow [key]]
          else ((List.map (fun (a : Nat) => [code, Val.num a, v a]) (yearsList y0 y1)).filter
              (fun rr => projCols ["country_code", "year", key] rr
                  ((C1 ++ ["temp"]).filter (fun c => c ∈ ["country_code", "year", key])) =
                projCols (C1 ++ ["temp"]) lr
                  ((C1 ++ ["temp"]).filter (fun c => c ∈ ["country_code", "year", key])))).map
              (fun rr => lr ++ projCols ["country_code", "year", key] rr [key])) drows
        = drows.map (fun lr =>
            match (yearsList y0 y1).find?
                (fun (y : Nat) => rowKey (C1 ++ ["temp"]) lr = (code, Val.num y)) with
            | some yy => lr ++ [v yy]
            | none => lr ++ [Val.na]) from ?_]
      · rw [List.map_map]
        refine List.map_congr_left ?_
        intro lr hlr
        show ((fun r => eraseCol (C1 ++ ["temp"] ++ [key]) r key) ∘ fun r =>
            if getCol (C1 ++ ["temp"] ++ [key]) r "temp" = Val.na then
              updateCol (C1 ++ ["temp"] ++ [key]) r "temp" (getCol (C1 ++ ["temp"] ++ [key]) r key)
            else r)
            (match (yearsList y0 y1).find?
                (fun (y : Nat) => rowKey (C1 ++ ["temp"]) lr = (code, Val.num y)) with
            | some yy => lr ++ [v yy]
            | none => lr ++ [Val.na])
          = rowUpd (C1 ++ ["temp"]) code (yearsList y0 y1) v lr
        have hl : lr.length = (C1 ++ ["temp"]).length := hwf lr hlr
        rw [rowUpd]
        cases hfind : (yearsList y0 y1).find?
            (fun (y : Nat) => rowKey (C1 ++ ["temp"]) lr = (code, Val.num y)) with
        | none =>
          simp only [Function.comp_apply]
          rw [getCol_append_left _ _ htempC2 hl]
          by_cases hna : getCol (C1 ++ ["temp"]) lr "temp" = Val.na
          · rw [if_pos hna, getCol_append_right _ _ hkeyC2 hl,
              show getCol [key] [Val.na] key = Val.na from by rw [getCol_cons, if_pos rfl],
              updateCol_append_left _ _ _ htempC2 hl, updateCol_self hna,
              eraseCol_append_of_not_mem _ _ hkeyC2 hl,
              show eraseCol [key] [Val.na] key = [] from by rw [eraseCol, if_pos rfl],
              List.append_nil]
          · rw [if_neg hna, eraseCol_append_of_not_mem _ _ hkeyC2 hl,
              show eraseCol [key] [Val.na] key = [] from by rw [eraseCol, if_pos rfl],
              List.append_nil]
        | some yy =>
          simp only [Function.comp_apply]
          rw [getCol_append_left _ _ htempC2 hl]
          by_cases hna : getCol (C1 ++ ["temp"]) lr "temp" = Val.na
          · rw [if_pos hna, if_pos hna, getCol_append_right _ _ hkeyC2 hl,
              show getCol [key] [v yy] key = v yy from by rw [getCol_cons, if_pos rfl],
              updateCol_append_left _ _ _ htempC2 hl,
              eraseCol_append_of_not_mem _ _ hkeyC2
                (by rw [length_updateCol]; exact hl),
              show eraseCol [key] [v yy] key = [] from by rw [eraseCol, if_pos rfl],
              List.append_nil]
          · rw [if_neg hna, if_neg hna, eraseCol_append_of_not_mem _ _ hkeyC2 hl,
              show eraseCol [key] [v yy] key = [] from by rw [eraseCol, if_pos rfl],
              List.append_nil]
      · -- the body of the concatMap produces exactly one row per input row
        refine (concatMap_congr (fun lr hlr => ?_)).trans (concatMap_singleton _ drows)
        cases hfind : (yearsList y0 y1).find?
            (fun (y : Nat) => rowKey (C1 ++ ["temp"]) lr = (code, Val.num y)) with
        | none =>
          have hnil : (List.map (fun (a : Nat) => [code, Val.num a, v a]) (yearsList y0 y1)).filter
              (fun rr => projCols ["country_code", "year", key] rr
                  ((C1 ++ ["temp"]).filter (fun c => c ∈ ["country_code", "year", key])) =
                projCols (C1 ++ ["temp"]) lr
                  ((C1 ++ ["temp"]).filter (fun c => c ∈ ["country_code", "year", key]))) = [] := by
            rw [map_filter_comm]
            rw [show (yearsList y0 y1).filter (fun (a : Nat) =>
                decide (projCols ["country_code", "year", key] [code, Val.num a, v a]
                    ((C1 ++ ["temp"]).filter (fun c => c ∈ ["country_code", "year", key])) =
                  projCols (C1 ++ ["temp"]) lr
                    ((C1 ++ ["temp"]).filter (fun c => c ∈ ["country_code", "year", key])))) = []
              from List.filter_eq_nil_iff.mpr (by
                intro y hy hpy
                simp only [decide_eq_true_eq] at hpy
                obtain ⟨h1, h2⟩ := (projCols_match_iff hkey hkt hcc hyr lr code
                  (Val.num y) (v y)).mp hpy
                have := List.find?_eq_none.mp hfind y hy
                simp only [decide_eq_true_eq] at this
                exact this (by rw [rowKey, h1, h2]))]
            rfl
          rw [if_pos hnil]
          rfl
        | some yy =>
          have hprd : rowKey (C1 ++ ["temp"]) lr = (code, Val.num yy) := by
            have := List.find?_some hfind
            simpa only [decide_eq_true_eq] using this
          have hmemy : yy ∈ yearsList y0 y1 := List.mem_of_find?_eq_some hfind
          obtain ⟨hc1, hc2⟩ : getCol (C1 ++ ["temp"]) lr "country_code" = code ∧
              getCol (C1 ++ ["temp"]) lr "year" = Val.num yy := by
            rw [rowKey] at hprd
            exact ⟨congrArg Prod.fst hprd, congrArg Prod.snd hprd⟩
          have hsing : (List.map (fun (a : Nat) => [code, Val.num a, v a]) (yearsList y0 y1)).filter
              (fun rr => projCols ["country_code", "year", key] rr
                  ((C1 ++ ["temp"]).filter (fun c => c ∈ ["country_code", "year", key])) =
                projCols (C1 ++ ["temp"]) lr
                  ((C1 ++ ["temp"]).filter (fun c => c ∈ ["country_code", "year", key]))) =
              [[code, Val.num yy, v yy]] := by
            rw [map_filter_comm]
            rw [filter_eq_singleton (yearsList_nodup y0 y1) hmemy (fun y hy => by
              simp only [decide_eq_true_eq]
              constructor
              · intro hpy
                obtain ⟨h1, h2⟩ := (projCols_match_iff hkey hkt hcc hyr lr code
                  (Val.num y) (v y)).mp hpy
                exact num_nat_inj (h2.symm.trans hc2)
              · intro he
                subst he
                exact (projCols_match_iff hkey hkt hcc hyr lr code
                  (Val.num y) (v y)).mpr ⟨hc1, hc2⟩)]
            rfl
          rw [hsing]
          rw [if_neg (by simp)]
          rw [List.map_cons, List.map_nil, hproj]
    · -- appended part: one fresh row per uncovered year of the range
      rw [map_filter_comm]
      rw [List.filter_congr (fun (y : Nat) hy => show
          (drows.all (fun lr =>
            projCols (C1 ++ ["temp"]) lr
                ((C1 ++ ["temp"]).filter (fun c => c ∈ ["country_code", "year", key])) ≠
              projCols ["country_code", "year", key] [code, Val.num y, v y]
                ((C1 ++ ["temp"]).filter (fun c => c ∈ ["country_code", "year", key])))) =
          decide ((code, Val.num y) ∉ drows.map (rowKey (C1 ++ ["temp"]))) from by
        have hiff : (drows.all (fun lr =>
            projCols (C1 ++ ["temp"]) lr
                ((C1 ++ ["temp"]).filter (fun c => c ∈ ["country_code", "year", key])) ≠
              projCols ["country_code", "year", key] [code, Val.num y, v y]
                ((C1 ++ ["temp"]).filter (fun c => c ∈ ["country_code", "year", key]))) = true) ↔
            ((code, Val.num y) ∉ drows.map (rowKey (C1 ++ ["temp"]))) := by
          rw [List.all_eq_true]
          constructor
          · intro h hmem
            obtain ⟨lr, hlr, hklr⟩ := List.mem_map.mp hmem
            have h2 := h lr hlr
            simp only [decide_eq_true_eq] at h2
            refine h2 ?_
            refine ((projCols_match_iff hkey hkt hcc hyr lr code (Val.num y) (v y)).mpr ?_).symm
            rw [rowKey] at hklr
            exact ⟨congrArg Prod.fst hklr, congrArg Prod.snd hklr⟩
          · intro h lr hlr
            simp only [decide_eq_true_eq]
            intro hpe
            obtain ⟨h1, h2⟩ := (projCols_match_iff hkey hkt hcc hyr lr code
              (Val.num y) (v y)).mp hpe.symm
            exact h (List.mem_map.mpr ⟨lr, hlr, by rw [rowKey, h1, h2]⟩)
        cases hb : (drows.all (fun lr =>
            projCols (C1 ++ ["temp"]) lr
                ((C1 ++ ["temp"]).filter (fun c => c ∈ ["country_code", "year", key])) ≠
              projCols ["country_code", "year", key] [code, Val.num y, v y]
                ((C1 ++ ["temp"]).filter (fun c => c ∈ ["country_code", "year", key]))))
        · rw [hb] at hiff
          exact (decide_eq_false (fun hp => by simpa using hiff.mpr hp)).symm
        · rw [hb] at hiff
          exact (decide_eq_true (hiff.mp rfl)).symm)]
      simp only [List.map_map]
      refine List.map_congr_left ?_
      intro y hy
      simp only [Function.comp_apply]
      rw [hproj y]
      have hlenmk : ((C1 ++ ["temp"]).map (fun c =>
          if c ∈ (C1 ++ ["temp"]).filter (fun c2 => c2 ∈ ["country_code", "year", key]) then
            getCol ["country_code", "year", key] [code, Val.num y, v y] c
          else Val.na)).length = (C1 ++ ["temp"]).length := List.length_map _ _
      have htempcommon : "temp" ∉ (C1 ++ ["temp"]).filter
          (fun c2 => c2 ∈ ["country_code", "year", key]) := by
        intro hmem
        rcases (by simpa using (List.mem_filter.mp hmem).2 :
            "temp" = "country_code" ∨ "temp" = "year" ∨ "temp" = key) with h | h | h
        · exact absurd h (by decide)
        · exact absurd h (by decide)
        · exact hkt h.symm
      rw [getCol_append_left _ _ htempC2 hlenmk, getCol_map_self _ htempC2,
        if_neg htempcommon, if_pos rfl, getCol_append_right _ _ hkeyC2 hlenmk,
        show ∀ (w : Val), getCol [key] [w] key = w from fun w => by rw [getCol_cons, if_pos rfl],
        updateCol_append_left _ _ _ htempC2 hlenmk,
        eraseCol_append_of_not_mem _ _ hkeyC2 (by rw [length_updateCol]; exact hlenmk),
        show eraseCol [key] [v y] key = [] from by rw [eraseCol, if_pos rfl],
        List.append_nil]
      rw [List.map_append, List.map_cons, List.map_nil, if_neg htempcommon,
        updateCol_append_right _ _ _ htemp (List.length_map _ _),
        show updateCol ["temp"] [Val.na] "temp" (v y) = [v y] from by
          rw [updateCol, if_pos rfl]]
      rw [freshRow, List.map_append, List.map_cons, List.map_nil,
        if_neg (show ¬("temp" = "country_code") from by decide),
        if_neg (show ¬("temp" = "year") from by decide), if_pos rfl]
      refine congrArg₂ (fun (a b : List Val) => a ++ b) ?_ rfl
      refine List.map_congr_left ?_
      intro c hc
      by_cases h1 : c = "country_code"
      · subst h1
        rw [if_pos (List.mem_filter.mpr ⟨List.mem_append_left _ hc, by simp⟩),
          getCol_cons, if_pos rfl, if_pos rfl]
      · by_cases h2 : c = "year"
        · subst h2
          rw [if_pos (List.mem_filter.mpr ⟨List.mem_append_left _ hc, by simp⟩),
            getCol_cons, if_neg (by decide), getCol_cons, if_pos rfl,
            if_neg (by decide), if_pos rfl]
        · rw [if_neg (fun hmem => by
              rcases (by simpa using (List.mem_filter.mp hmem).2 :
                  c = "country_code" ∨ c = "year" ∨ c = key) with h | h | h
              · exact h1 h
              · exact h2 h
              · exact hkey (h ▸ hc)),
            if_neg h1, if_neg h2,
            if_neg (fun he => htemp (by rw [← he]; exact hc))]

theorem find?_eq_some_unique {l : List α} {p : α → Bool} {a : α} (ha : a ∈ l)
    (hall : ∀ b ∈ l, (p b = true ↔ b = a)) : l.find? p = some a := by
  induction l with
  | nil => simp at ha
  | cons b rest ih =>
    by_cases hb : p b = true
    · rw [List.find?_cons_of_pos _ hb, (hall b (List.mem_cons_self b rest)).mp hb]
    · rw [List.find?_cons_of_neg _ hb]
      rcases List.mem_cons.mp ha with h | h
      · exact absurd ((hall b (List.mem_cons_self b rest)).mpr h.symm) hb
      · exact ih h (fun c hc => hall c (List.mem_cons_of_mem b hc))

theorem specCell_no_code {fcols : List String} {pfx : List (List Val)} {ck : Val}
    (years : List Nat) (yk : Val)
    (h : ∀ rf ∈ pfx, getCol fcols rf "country_code" ≠ ck) :
    specCell ⟨fcols, pfx⟩ years ck yk = Val.na := by
  rw [specCell]
  rw [show pfx.find? (fun rf => getCol fcols rf "country_code" = ck) = none from
    List.find?_eq_none.mpr (fun rf hrf => by simpa using h rf hrf)]

theorem length_freshRow (cols : List String) (code : Val) (y : Nat) (val : Val) :
    (freshRow cols code y val).length = cols.length := List.length_map _ _

theorem getCol_freshRow_cc {cols : List String} (code : Val) (y : Nat) (val : Val)
    (h : "country_code" ∈ cols) :
    getCol cols (freshRow cols code y val) "country_code" = code := by
  rw [freshRow, getCol_map_self _ h, if_pos rfl]

theorem getCol_freshRow_year {cols : List String} (code : Val) (y : Nat) (val : Val)
    (h : "year" ∈ cols) :
    getCol cols (freshRow cols code y val) "year" = Val.num y := by
  rw [freshRow, getCol_map_self _ h, if_neg (by decide), if_pos rfl]

theorem getCol_freshRow_temp {cols : List String} (code : Val) (y : Nat) (val : Val)
    (h : "temp" ∈ cols) :
    getCol cols (freshRow cols code y val) "temp" = val := by
  rw [freshRow, getCol_map_self _ h, if_neg (by decide), if_neg (by decide), if_pos rfl]

theorem getCol_freshRow_other {cols : List String} (code : Val) (y : Nat) (val : Val)
    {c : String} (h : c ∈ cols) (h1 : c ≠ "country_code") (h2 : c ≠ "year")
    (h3 : c ≠ "temp") :
    getCol cols (freshRow cols code y val) c = Val.na := by
  rw [freshRow, getCol_map_self _ h, if_neg h1, if_neg h2, if_neg h3]

theorem rowKey_freshRow {cols : List String} (code : Val) (y : Nat) (val : Val)
    (hcc : "country_code" ∈ cols) (hyr : "year" ∈ cols) :
    rowKey cols (freshRow cols code y val) = (code, Val.num y) := by
  rw [rowKey, getCol_freshRow_cc _ _ _ hcc, getCol_freshRow_year _ _ _ hyr]

theorem getCol_rowUpd_ne_temp {cols : List String} (code : Val) (years : List Nat)
    (v : Nat → Val) (r : List Val) {c : String} (h : c ≠ "temp") :
    getCol cols (rowUpd cols code years v r) c = getCol cols r c := by
  rw [rowUpd]
  split
  · split
    · rw [getCol_updateCol_ne _ _ _ h]
    · rfl
  · rfl

theorem rowKey_rowUpd {cols : List String} (code : Val) (years : List Nat)
    (v : Nat → Val) (r : List Val) :
    rowKey cols (rowUpd cols code years v r) = rowKey cols r := by
  rw [rowKey, rowKey, getCol_rowUpd_ne_temp _ _ _ _ (by decide),
    getCol_rowUpd_ne_temp _ _ _ _ (by decide)]

theorem length_rowUpd {cols : List String} (code : Val) (years : List Nat)
    (v : Nat → Val) (r : List Val) :
    (rowUpd cols code years v r).length = r.length := by
  rw [rowUpd]
  split
  · split
    · rw [length_updateCol]
    · rfl
  · rfl

theorem specCell_new_code_found {fcols : List String} {pfx : List (List Val)}
    {rowj : List Val} {years : List Nat} {yk : Val} {y : Nat}
    (hnotin : getCol fcols rowj "country_code" ∉
      pfx.map (fun rf => getCol fcols rf "country_code"))
    (hfind : years.find? (fun (y2 : Nat) => yk = Val.num y2) = some y) :
    specCell ⟨fcols, pfx ++ [rowj]⟩ years (getCol fcols rowj "country_code") yk =
      getCol fcols rowj (toString y) := by
  rw [specCell]
  rw [show (pfx ++ [rowj]).find? (fun rf => getCol fcols rf "country_code" =
      getCol fcols rowj "country_code") = some rowj from by
    rw [List.find?_append,
      show pfx.find? (fun rf => getCol fcols rf "country_code" =
          getCol fcols rowj "country_code") = none from
        List.find?_eq_none.mpr (fun rf hrf => by
          simp only [decide_eq_true_eq]
          exact fun he => hnotin (List.mem_map.mpr ⟨rf, hrf, he⟩)),
      Option.none_or, List.find?_cons_of_pos _ (by simp)]]
  rw [hfind]

theorem specCell_new_code_none {fcols : List String} {pfx : List (List Val)}
    {rowj : List Val} {years : List Nat} {yk : Val}
    (hnotin : getCol fcols rowj "country_code" ∉
      pfx.map (fun rf => getCol fcols rf "country_code"))
    (hfind : years.find? (fun (y2 : Nat) => yk = Val.num y2) = none) :
    specCell ⟨fcols, pfx ++ [rowj]⟩ years (getCol fcols rowj "country_code") yk = Val.na := by
  rw [specCell]
  rw [show (pfx ++ [rowj]).find? (fun rf => getCol fcols rf "country_code" =
      getCol fcols rowj "country_code") = some rowj from by
    rw [List.find?_append,
      show pfx.find? (fun rf => getCol fcols rf "country_code" =
          getCol fcols rowj "country_code") = none from
        List.find?_eq_none.mpr (fun rf hrf => by
          simp only [decide_eq_true_eq]
          exact fun he => hnotin (List.mem_map.mpr ⟨rf, hrf, he⟩)),
      Option.none_or, List.find?_cons_of_pos _ (by simp)]]
  rw [hfind]

theorem specCell_append_other {fcols : List String} {pfx : List (List Val)}
    {rowj : List Val} {years : List Nat} {ck yk : Val}
    (hne : getCol fcols rowj "country_code" ≠ ck) :
    specCell ⟨fcols, pfx ++ [rowj]⟩ years ck yk = specCell ⟨fcols, pfx⟩ years ck yk := by
  rw [specCell, specCell]
  rw [show (pfx ++ [rowj]).find? (fun rf => getCol fcols rf "country_code" = ck) =
      pfx.find? (fun rf => getCol fcols rf "country_code" = ck) from by
    rw [List.find?_append]
    cases hp : pfx.find? (fun rf => getCol fcols rf "country_code" = ck) with
    | some rf => rfl
    | none =>
      rw [Option.none_or, List.find?_cons_of_neg _ (by simpa using hne), List.find?_nil]]

theorem rowUpd_of_find_some {cols : List String} {code : Val} {years : List Nat}
    {v : Nat → Val} {r : List Val} {y : Nat}
    (hfind : years.find? (fun (y2 : Nat) => rowKey cols r = (code, Val.num y2)) = some y) :
    rowUpd cols code years v r =
      if getCol cols r "temp" = Val.na then updateCol cols r "temp" (v y) else r := by
  rw [rowUpd, hfind]

theorem rowUpd_of_find_none {cols : List String} {code : Val} {years : List Nat}
    {v : Nat → Val} {r : List Val}
    (hfind : years.find? (fun (y2 : Nat) => rowKey cols r = (code, Val.num y2)) = none) :
    rowUpd cols code years v r = r := by
  rw [rowUpd, hfind]


theorem TInv_step {C1 : List String} {fcols : List String} {y0 y1 : Nat}
    {d0rows : List (List Val)} {pfx : List (List Val)} {R : List (List Val)}
    {rowj : List Val}
    (htemp : "temp" ∉ C1) (hcc : "country_code" ∈ C1) (hyr : "year" ∈ C1)
    (hnotin : getCol fcols rowj "country_code" ∉
      pfx.map (fun rf => getCol fcols rf "country_code"))
    (hInv : TInv C1 fcols (yearsList y0 y1) d0rows pfx R) :
    TInv C1 fcols (yearsList y0 y1) d0rows (pfx ++ [rowj])
      (R.map (rowUpd (C1 ++ ["temp"]) (getCol fcols rowj "country_code") (yearsList y0 y1)
        (fun y => getCol fcols rowj (toString y)))
      ++ ((yearsList y0 y1).filter (fun (y : Nat) =>
            (getCol fcols rowj "country_code", Val.num y) ∉
              R.map (rowKey (C1 ++ ["temp"])))).map
          (fun y => freshRow (C1 ++ ["temp"]) (getCol fcols rowj "country_code") y
            (getCol fcols rowj (toString y)))) := by
  obtain ⟨hWf, hNd, hKeys, hTemp, hPres⟩ := hInv
  have hccC2 : "country_code" ∈ C1 ++ ["temp"] := List.mem_append_left _ hcc
  have hyrC2 : "year" ∈ C1 ++ ["temp"] := List.mem_append_left _ hyr
  have htempC2 : "temp" ∈ C1 ++ ["temp"] :=
    List.mem_append_right _ (List.mem_singleton.mpr rfl)
  have hkeymap : (R.map (rowUpd (C1 ++ ["temp"]) (getCol fcols rowj "country_code")
      (yearsList y0 y1) (fun y => getCol fcols rowj (toString y)))).map
        (rowKey (C1 ++ ["temp"])) = R.map (rowKey (C1 ++ ["temp"])) := by
    rw [List.map_map]
    exact List.map_congr_left (fun r hr => rowKey_rowUpd _ _ _ _)
  have hfreshmap : (((yearsList y0 y1).filter (fun (y : Nat) =>
      (getCol fcols rowj "country_code", Val.num y) ∉
        R.map (rowKey (C1 ++ ["temp"])))).map
        (fun y => freshRow (C1 ++ ["temp"]) (getCol fcols rowj "country_code") y
          (getCol fcols rowj (toString y)))).map (rowKey (C1 ++ ["temp"])) =
      ((yearsList y0 y1).filter (fun (y : Nat) =>
        (getCol fcols rowj "country_code", Val.num y) ∉
          R.map (rowKey (C1 ++ ["temp"])))).map
        (fun (y : Nat) => (getCol fcols rowj "country_code", Val.num y)) := by
    rw [List.map_map]
    exact List.map_congr_left (fun y hy => rowKey_freshRow _ _ _ hccC2 hyrC2)
  refine ⟨?_, ?_, ?_, ?_, ?_⟩
  · -- lengths
    intro r hr
    rcases List.mem_append.mp hr with h | h
    · obtain ⟨r0, hr0, hre⟩ := List.mem_map.mp h
      rw [← hre, length_rowUpd]
      exact hWf r0 hr0
    · obtain ⟨y, hy, hre⟩ := List.mem_map.mp h
      rw [← hre, length_freshRow]
  · -- nodup keys
    rw [List.map_append, hkeymap, hfreshmap]
    rw [List.nodup_append]
    refine ⟨hNd, ?_, ?_⟩
    · refine List.Nodup.map ?_ (((yearsList_nodup y0 y1)).filter _)
      intro a b hab
      have := congrArg Prod.snd hab
      exact num_nat_inj this
    · intro kv hkv hkv2
      obtain ⟨y, hy, hre⟩ := List.mem_map.mp hkv2
      have hcond := (List.mem_filter.mp hy).2
      simp only [decide_eq_true_eq] at hcond
      rw [← hre] at hkv
      exact hcond hkv
  · -- key characterisation
    intro kv
    rw [List.map_append, hkeymap, hfreshmap, List.mem_append]
    constructor
    · intro h
      rcases h with h | h
      · rcases (hKeys kv).mp h with h2 | ⟨rf, hrf, y, hy, he⟩
        · exact Or.inl h2
        · exact Or.inr ⟨rf, List.mem_append_left _ hrf, y, hy, he⟩
      · obtain ⟨y, hy, hre⟩ := List.mem_map.mp h
        exact Or.inr ⟨rowj, List.mem_append_right _ (List.mem_singleton.mpr rfl), y,
          (List.mem_filter.mp hy).1, hre.symm⟩
    · intro h
      rcases h with h | ⟨rf, hrf, y, hy, he⟩
      · exact Or.inl ((hKeys kv).mpr (Or.inl h))
      · rcases List.mem_append.mp hrf with hrf2 | hrf2
        · exact Or.inl ((hKeys kv).mpr (Or.inr ⟨rf, hrf2, y, hy, he⟩))
        · rw [List.mem_singleton.mp hrf2] at he
          by_cases hin : kv ∈ R.map (rowKey (C1 ++ ["temp"]))
          · exact Or.inl hin
          · refine Or.inr (List.mem_map.mpr ⟨y, List.mem_filter.mpr ⟨hy, ?_⟩, he.symm⟩)
            simp only [decide_eq_true_eq]
            rw [← he]
            exact hin
  · -- temp formula
    intro r' hr'
    rcases List.mem_append.mp hr' with h | h
    · obtain ⟨r, hr, hre⟩ := List.mem_map.mp h
      subst hre
      cases hfind : (yearsList y0 y1).find? (fun (y2 : Nat) =>
          rowKey (C1 ++ ["temp"]) r = (getCol fcols rowj "country_code", Val.num y2)) with
      | some y =>
        have hkr : rowKey (C1 ++ ["temp"]) r = (getCol fcols rowj "country_code", Val.num y) := by
          have := List.find?_some hfind
          simpa only [decide_eq_true_eq] using this
        have hym : y ∈ yearsList y0 y1 := List.mem_of_find?_eq_some hfind
        have hckr : getCol (C1 ++ ["temp"]) r "country_code" =
            getCol fcols rowj "country_code" := by
          rw [rowKey] at hkr
          exact congrArg Prod.fst hkr
        have hykr : getCol (C1 ++ ["temp"]) r "year" = Val.num y := by
          rw [rowKey] at hkr
          exact congrArg Prod.snd hkr
        have hold : getCol (C1 ++ ["temp"]) r "temp" = Val.na := by
          rw [hTemp r hr, hckr]
          exact specCell_no_code _ _ (fun rf hrf he =>
            hnotin (List.mem_map.mpr ⟨rf, hrf, he⟩))
        rw [rowUpd_of_find_some hfind, if_pos hold]
        have hlen : r.length = (C1 ++ ["temp"]).length := hWf r hr
        rw [getCol_updateCol_self _ htempC2 hlen,
          getCol_updateCol_ne _ _ _ (show ("country_code" : String) ≠ "temp" from by decide),
          getCol_updateCol_ne _ _ _ (show ("year" : String) ≠ "temp" from by decide),
          hckr, hykr]
        rw [specCell_new_code_found hnotin (find?_eq_some_unique hym (fun b hb => by
          simp only [decide_eq_true_eq]
          constructor
          · intro he
            exact num_nat_inj he.symm
          · intro he
            rw [he]))]
      | none =>
        rw [rowUpd_of_find_none hfind]
        by_cases hck : getCol fcols rowj "country_code" =
            getCol (C1 ++ ["temp"]) r "country_code"
        · rw [← hck]
          rw [specCell_new_code_none hnotin (List.find?_eq_none.mpr (fun y hy => by
            simp only [decide_eq_true_eq]
            intro he
            have := List.find?_eq_none.mp hfind y hy
            simp only [decide_eq_true_eq] at this
            exact this (by rw [rowKey, hck, he])))]
          rw [hTemp r hr, ← hck]
          exact specCell_no_code _ _ (fun rf hrf he =>
            hnotin (List.mem_map.mpr ⟨rf, hrf, he⟩))
        · rw [specCell_append_other hck]
          exact hTemp r hr
    · obtain ⟨y, hy, hre⟩ := List.mem_map.mp h
      subst hre
      rw [getCol_freshRow_temp _ _ _ htempC2, getCol_freshRow_cc _ _ _ hccC2,
        getCol_freshRow_year _ _ _ hyrC2]
      rw [specCell_new_code_found hnotin (find?_eq_some_unique (List.mem_filter.mp hy).1
        (fun b hb => by
          simp only [decide_eq_true_eq]
          constructor
          · intro he
            exact num_nat_inj he.symm
          · intro he
            rw [he]))]
  · -- preservation
    intro r' hr'
    rcases List.mem_append.mp hr' with h | h
    · obtain ⟨r, hr, hre⟩ := List.mem_map.mp h
      subst hre
      have hcell : ∀ c ∈ C1, getCol (C1 ++ ["temp"])
          (rowUpd (C1 ++ ["temp"]) (getCol fcols rowj "country_code") (yearsList y0 y1)
            (fun y => getCol fcols rowj (toString y)) r) c = getCol (C1 ++ ["temp"]) r c :=
        fun c hc => getCol_rowUpd_ne_temp _ _ _ _ (fun he => htemp (by rw [← he]; exact hc))
      rcases hPres r hr with ⟨r0, hr0, hcells⟩ | ⟨hkey2, hcells⟩
      · exact Or.inl ⟨r0, hr0, fun c hc => (hcell c hc).trans (hcells c hc)⟩
      · refine Or.inr ⟨?_, fun c hc h1 h2 => (hcell c hc).trans (hcells c hc h1 h2)⟩
        rw [rowKey_rowUpd]
        exact hkey2
    · obtain ⟨y, hy, hre⟩ := List.mem_map.mp h
      subst hre
      refine Or.inr ⟨?_, ?_⟩
      · rw [rowKey_freshRow _ _ _ hccC2 hyrC2]
        intro hmem
        have hcond := (List.mem_filter.mp hy).2
        simp only [decide_eq_true_eq] at hcond
        exact hcond ((hKeys _).mpr (Or.inl hmem))
      · intro c hc h1 h2
        exact getCol_freshRow_other _ _ _ (List.mem_append_left _ hc) h1 h2
          (fun he => htemp (by rw [← he]; exact hc))

theorem foldStep_TInv {C1 fcols : List String} {y0 y1 : Nat} {key : String}
    {d0rows : List (List Val)}
    (htemp : "temp" ∉ C1) (hkey : key ∉ C1) (hkt : key ≠ "temp")
    (hkc : key ≠ "country_code") (hky : key ≠ "year")
    (hcc : "country_code" ∈ C1) (hyr : "year" ∈ C1)
    (hfc : "country_code" ∈ fcols) (hfy : ∀ y ∈ yearsList y0 y1, toString y ∈ fcols) :
    ∀ (rest pfx : List (List Val)),
      ((pfx ++ rest).map (fun rf => getCol fcols rf "country_code")).Nodup →
      ∀ R, TInv C1 fcols (yearsList y0 y1) d0rows pfx R →
      ∃ R', foldStep (rowStep key y0 y1 fcols) ⟨C1 ++ ["temp"], R⟩ rest =
          some ⟨C1 ++ ["temp"], R'⟩ ∧
        TInv C1 fcols (yearsList y0 y1) d0rows (pfx ++ rest) R' := by
  intro rest
  induction rest with
  | nil =>
    intro pfx hnd R hInv
    exact ⟨R, foldStep_nil _ _, by rwa [List.append_nil]⟩
  | cons rowj rest ih =>
    intro pfx hnd R hInv
    have hnotin : getCol fcols rowj "country_code" ∉
        pfx.map (fun rf => getCol fcols rf "country_code") := by
      rw [List.map_append] at hnd
      intro hmem
      exact (List.nodup_append.mp hnd).2.2 hmem
        (List.mem_map.mpr ⟨rowj, List.mem_cons_self rowj rest, rfl⟩)
    have hstep := TInv_step htemp hcc hyr hnotin hInv
    have hrow := @rowStep_spec C1 key y0 y1 fcols R rowj
      hInv.1 htemp hkey hkt hkc hky hcc hyr hfc hfy
    rw [foldStep_cons, hrow]
    have hnd2 : (((pfx ++ [rowj]) ++ rest).map
        (fun rf => getCol fcols rf "country_code")).Nodup := by
      rw [List.append_assoc, List.singleton_append]
      exact hnd
    obtain ⟨R', hfold, hInv'⟩ := ih (pfx ++ [rowj]) hnd2 _ hstep
    refine ⟨R', hfold, ?_⟩
    rwa [List.append_assoc, List.singleton_append] at hInv'

theorem tableStep_spec {C1 : List String} {drows : List (List Val)} {key : String}
    {frame : DataFrame} {y0 y1 : Nat}
    (htemp : "temp" ∉ C1) (hkey : key ∉ C1) (hkt : key ≠ "temp")
    (hkc : key ≠ "country_code") (hky : key ≠ "year")
    (hcc : "country_code" ∈ C1) (hyr : "year" ∈ C1)
    (hfc : "country_code" ∈ frame.cols)
    (hfy : ∀ y ∈ yearsList y0 y1, toString y ∈ frame.cols)
    (hfnd : (frame.rows.map (fun rf => getCol frame.cols rf "country_code")).Nodup)
    (hwf : ∀ r ∈ drows, r.length = C1.length)
    (hnd : (drows.map (rowKey C1)).Nodup) :
    ∃ R', tableStep y0 y1 ⟨C1, drows⟩ key frame = some ⟨C1 ++ [key], R'⟩ ∧
      (∀ r ∈ R', r.length = (C1 ++ [key]).length) ∧
      (R'.map (rowKey (C1 ++ [key]))).Nodup ∧
      (∀ kv, kv ∈ R'.map (rowKey (C1 ++ [key])) ↔
        kv ∈ drows.map (rowKey C1) ∨
        ∃ rf ∈ frame.rows, ∃ y ∈ yearsList y0 y1,
          kv = (getCol frame.cols rf "country_code", Val.num y)) ∧
      (∀ r ∈ R', getCol (C1 ++ [key]) r key =
        specCell frame (yearsList y0 y1) (getCol (C1 ++ [key]) r "country_code")
          (getCol (C1 ++ [key]) r "year")) ∧
      (∀ r ∈ R',
        (∃ r0 ∈ drows, ∀ c ∈ C1, getCol (C1 ++ [key]) r c = getCol C1 r0 c) ∨
        (rowKey (C1 ++ [key]) r ∉ drows.map (rowKey C1) ∧
          ∀ c ∈ C1, c ≠ "country_code" → c ≠ "year" →
            getCol (C1 ++ [key]) r c = Val.na)) := by
  have htempC2 : "temp" ∈ C1 ++ ["temp"] :=
    List.mem_append_right _ (List.mem_singleton.mpr rfl)
  have hkeyC2 : key ∉ C1 ++ ["temp"] := by
    intro h
    rcases List.mem_append.mp h with h | h
    · exact hkey h
    · exact hkt (List.mem_singleton.mp h)
  -- keys of the initialised frame agree with the keys of the input rows
  have hR0key : ∀ r0 ∈ drows, rowKey (C1 ++ ["temp"]) (r0 ++ [Val.na]) = rowKey C1 r0 := by
    intro r0 hr0
    rw [rowKey, rowKey, getCol_append_left _ _ hcc (hwf r0 hr0),
      getCol_append_left _ _ hyr (hwf r0 hr0)]
  have hR0keys : (drows.map (fun r => r ++ [Val.na])).map (rowKey (C1 ++ ["temp"])) =
      drows.map (rowKey C1) := by
    rw [List.map_map]
    exact List.map_congr_left (fun r0 hr0 => hR0key r0 hr0)
  -- the initial invariant, with the initialised rows as the reference rows
  have hInv0 : TInv C1 frame.cols (yearsList y0 y1) (drows.map (fun r => r ++ [Val.na])) []
      (drows.map (fun r => r ++ [Val.na])) := by
    refine ⟨?_, ?_, ?_, ?_, ?_⟩
    · intro r hr
      obtain ⟨r0, hr0, hre⟩ := List.mem_map.mp hr
      rw [← hre]
      simp [hwf r0 hr0]
    · rw [hR0keys]
      exact hnd
    · intro kv
      simp
    · intro r hr
      obtain ⟨r0, hr0, hre⟩ := List.mem_map.mp hr
      rw [← hre, getCol_append_right _ _ htemp (hwf r0 hr0)]
      rfl
    · intro r hr
      exact Or.inl ⟨r, hr, fun c hc => rfl⟩
  obtain ⟨R1, hfold, hInv1⟩ := foldStep_TInv htemp hkey hkt hkc hky hcc hyr hfc hfy
    frame.rows [] (by simpa using hfnd) _ hInv0
  rw [List.nil_append] at hInv1
  obtain ⟨hWf1, hNd1, hKeys1, hTemp1, hPres1⟩ := hInv1
  -- run the pipeline of tableStep
  rw [tableStep]
  simp only [Option.bind_eq_bind]
  rw [show setColVals ⟨C1, drows⟩ "temp"
      ((⟨C1, drows⟩ : DataFrame).rows.map (fun _ => Val.na)) =
      (⟨C1 ++ ["temp"], drows.map (fun r => r ++ [Val.na])⟩ : DataFrame) from by
    rw [setColVals, if_neg htemp]
    show (⟨C1 ++ ["temp"], (drows.zip (drows.map (fun _ => Val.na))).map
      (fun p => p.1 ++ [p.2])⟩ : DataFrame) = _
    rw [zip_map_self]]
  rw [hfold]
  simp only [Option.some_bind]
  rw [show getColVals ⟨C1 ++ ["temp"], R1⟩ "temp" =
      some (R1.map (fun r => getCol (C1 ++ ["temp"]) r "temp")) from by
    rw [getColVals]
    exact if_pos htempC2]
  simp only [Option.some_bind]
  rw [show setColVals ⟨C1 ++ ["temp"], R1⟩ key
      (R1.map (fun r => getCol (C1 ++ ["temp"]) r "temp")) =
      (⟨(C1 ++ ["temp"]) ++ [key],
        R1.map (fun r => r ++ [getCol (C1 ++ ["temp"]) r "temp"])⟩ : DataFrame) from by
    rw [setColVals, if_neg hkeyC2]
    show (⟨(C1 ++ ["temp"]) ++ [key],
      (R1.zip (R1.map (fun r => getCol (C1 ++ ["temp"]) r "temp"))).map
        (fun p => p.1 ++ [p.2])⟩ : DataFrame) = _
    rw [zip_map_self]]
  rw [dropCol_eq (show "temp" ∈ (C1 ++ ["temp"]) ++ [key] from List.mem_append_left _ htempC2)]
  have hcolse : eraseColName ((C1 ++ ["temp"]) ++ [key]) "temp" = C1 ++ [key] := by
    rw [List.append_assoc, eraseColName_append_of_not_mem _ htemp]
    rw [show eraseColName (["temp"] ++ [key]) "temp" = [key] from by
      rw [List.singleton_append, eraseColName, if_pos rfl]]
  have hercell : ∀ r ∈ R1, ∀ c : String, c ≠ "temp" →
      getCol (C1 ++ [key]) (eraseCol ((C1 ++ ["temp"]) ++ [key])
        (r ++ [getCol (C1 ++ ["temp"]) r "temp"]) "temp") c =
      getCol ((C1 ++ ["temp"]) ++ [key]) (r ++ [getCol (C1 ++ ["temp"]) r "temp"]) c := by
    intro r hr c hct
    rw [← hcolse]
    exact getCol_eraseCol_ne _ _ hct
  have hercell1 : ∀ r ∈ R1, ∀ c ∈ C1,
      getCol (C1 ++ [key]) (eraseCol ((C1 ++ ["temp"]) ++ [key])
        (r ++ [getCol (C1 ++ ["temp"]) r "temp"]) "temp") c =
      getCol (C1 ++ ["temp"]) r c := by
    intro r hr c hc
    rw [hercell r hr c (fun he => htemp (by rw [← he]; exact hc)),
      getCol_append_left _ _ (List.mem_append_left _ hc) (hWf1 r hr)]
  have hercellk : ∀ r ∈ R1,
      getCol (C1 ++ [key]) (eraseCol ((C1 ++ ["temp"]) ++ [key])
        (r ++ [getCol (C1 ++ ["temp"]) r "temp"]) "temp") key =
      getCol (C1 ++ ["temp"]) r "temp" := by
    intro r hr
    rw [hercell r hr key hkt, getCol_append_right _ _ hkeyC2 (hWf1 r hr),
      getCol_cons, if_pos rfl]
  have herkey : ∀ r ∈ R1,
      rowKey (C1 ++ [key]) (eraseCol ((C1 ++ ["temp"]) ++ [key])
        (r ++ [getCol (C1 ++ ["temp"]) r "temp"]) "temp") =
      rowKey (C1 ++ ["temp"]) r := by
    intro r hr
    rw [rowKey, rowKey, hercell1 r hr _ hcc, hercell1 r hr _ hyr]
  have herkeys : (R1.map (fun r => eraseCol ((C1 ++ ["temp"]) ++ [key])
      (r ++ [getCol (C1 ++ ["temp"]) r "temp"]) "temp")).map (rowKey (C1 ++ [key])) =
      R1.map (rowKey (C1 ++ ["temp"])) := by
    rw [List.map_map]
    exact List.map_congr_left (fun r hr => herkey r hr)
  refine ⟨R1.map (fun r => eraseCol ((C1 ++ ["temp"]) ++ [key])
    (r ++ [getCol (C1 ++ ["temp"]) r "temp"]) "temp"), ?_, ?_, ?_, ?_, ?_, ?_⟩
  · rw [Option.some_inj, DataFrame.mk.injEq]
    constructor
    · exact hcolse
    · rw [List.map_map]
      rfl
  · intro r' hr'
    obtain ⟨r, hr, hre⟩ := List.mem_map.mp hr'
    rw [← hre, length_eraseCol _ _ (by simp [hWf1 r hr]), hcolse]
  · rw [herkeys]
    exact hNd1
  · intro kv
    rw [herkeys]
    rw [hKeys1 kv, hR0keys]
  · intro r' hr'
    obtain ⟨r, hr, hre⟩ := List.mem_map.mp hr'
    rw [← hre, hercellk r hr, hercell1 r hr _ hcc, hercell1 r hr _ hyr]
    exact hTemp1 r hr
  · intro r' hr'
    obtain ⟨r, hr, hre⟩ := List.mem_map.mp hr'
    rcases hPres1 r hr with ⟨r0p, hr0p, hcells⟩ | ⟨hk, hcells⟩
    · obtain ⟨r0, hr0, hre0⟩ := List.mem_map.mp hr0p
      refine Or.inl ⟨r0, hr0, fun c hc => ?_⟩
      rw [← hre, hercell1 r hr c hc, hcells c hc, ← hre0,
        getCol_append_left _ _ hc (hwf r0 hr0)]
    · refine Or.inr ⟨?_, fun c hc h1 h2 => ?_⟩
      · rw [← hre, herkey r hr]
        rw [hR0keys] at hk
        exact hk
      · rw [← hre, hercell1 r hr c hc]
        exact hcells c hc h1 h2

theorem specCell_na_or_covered (f : DataFrame) (years : List Nat) (ck yk : Val) :
    specCell f years ck yk = Val.na ∨
    ((∃ rf ∈ f.rows, getCol f.cols rf "country_code" = ck) ∧
      (∃ y ∈ years, yk = Val.num y)) := by
  cases hfc : f.rows.find? (fun rf => getCol f.cols rf "country_code" = ck) with
  | none =>
    rw [specCell, hfc]
    exact Or.inl rfl
  | some rf =>
    cases hfy : years.find? (fun (y : Nat) => yk = Val.num y) with
    | none =>
      rw [specCell, hfc, hfy]
      exact Or.inl rfl
    | some y =>
      refine Or.inr ⟨⟨rf, List.mem_of_find?_eq_some hfc, ?_⟩,
        ⟨y, List.mem_of_find?_eq_some hfy, ?_⟩⟩
      · have := List.find?_some hfc
        simpa only [decide_eq_true_eq] using this
      · have := List.find?_some hfy
        simpa only [decide_eq_true_eq] using this

theorem join_fold_spec {B : DataFrame} {y0 y1 : Nat}
    (hBcc : "country_code" ∈ B.cols) (hByr : "year" ∈ B.cols) (hBtemp : "temp" ∉ B.cols) :
    ∀ (rest P : List (String × DataFrame)),
      (((P ++ rest).map Prod.fst).Nodup) →
      (∀ p ∈ P ++ rest, p.1 ∉ B.cols ∧ p.1 ≠ "temp" ∧ p.1 ≠ "country_code" ∧ p.1 ≠ "year") →
      (∀ p ∈ P ++ rest, "country_code" ∈ p.2.cols ∧
        (∀ y ∈ yearsList y0 y1, toString y ∈ p.2.cols) ∧
        (p.2.rows.map (fun rf => getCol p.2.cols rf "country_code")).Nodup) →
      ∀ D, JInv B P (yearsList y0 y1) D →
      ∃ D2, foldStep (fun d p => tableStep y0 y1 d p.1 p.2) D rest = some D2 ∧
        JInv B (P ++ rest) (yearsList y0 y1) D2 := by
  intro rest
  induction rest with
  | nil =>
    intro P hnd hk hf D hInv
    exact ⟨D, foldStep_nil _ _, by rwa [List.append_nil]⟩
  | cons ptab rest ih =>
    intro P hnd hk hf D hInv
    obtain ⟨hcols, hWfD, hNdD, hKeysD, hCellsD⟩ := hInv
    obtain ⟨key, frame⟩ := ptab
    obtain ⟨Dcols, Drows⟩ := D
    simp only at hcols hWfD hNdD hKeysD hCellsD
    subst hcols
    have hmemhd : ((key, frame) : String × DataFrame) ∈ P ++ (key, frame) :: rest :=
      List.mem_append_right _ (List.mem_cons_self _ _)
    obtain ⟨hknB, hknt, hknc, hkny⟩ := hk _ hmemhd
    obtain ⟨hfcc, hfys, hfnd⟩ := hf _ hmemhd
    have hkeynotP : key ∉ P.map Prod.fst := by
      rw [List.map_append] at hnd
      intro hmem
      exact (List.nodup_append.mp hnd).2.2 hmem
        (List.mem_map.mpr ⟨(key, frame), List.mem_cons_self _ _, rfl⟩)
    have htempC1 : "temp" ∉ B.cols ++ P.map Prod.fst := by
      intro h
      rcases List.mem_append.mp h with h | h
      · exact hBtemp h
      · obtain ⟨p, hp, hpe⟩ := List.mem_map.mp h
        exact (hk p (List.mem_append_left _ hp)).2.1 hpe
    have hkeyC1 : key ∉ B.cols ++ P.map Prod.fst := by
      intro h
      rcases List.mem_append.mp h with h | h
      · exact hknB h
      · exact hkeynotP h
    have hccC1 : "country_code" ∈ B.cols ++ P.map Prod.fst := List.mem_append_left _ hBcc
    have hyrC1 : "year" ∈ B.cols ++ P.map Prod.fst := List.mem_append_left _ hByr
    obtain ⟨R2, hts, hP1, hP2, hP3, hP4, hP5⟩ :=
      @tableStep_spec (B.cols ++ P.map Prod.fst) Drows key frame y0 y1
        htempC1 hkeyC1 hknt hknc hkny hccC1 hyrC1 hfcc hfys hfnd hWfD hNdD
    rw [foldStep_cons]
    rw [show tableStep y0 y1 ⟨B.cols ++ P.map Prod.fst, Drows⟩ key frame =
      some ⟨(B.cols ++ P.map Prod.fst) ++ [key], R2⟩ from hts]
    have hInv2 : JInv B (P ++ [(key, frame)]) (yearsList y0 y1)
        ⟨(B.cols ++ P.map Prod.fst) ++ [key], R2⟩ := by
      refine ⟨?_, hP1, hP2, ?_, ?_⟩
      · simp [List.append_assoc]
      · intro kv
        rw [show (⟨(B.cols ++ P.map Prod.fst) ++ [key], R2⟩ : DataFrame).rows = R2 from rfl,
          show (⟨(B.cols ++ P.map Prod.fst) ++ [key], R2⟩ : DataFrame).cols =
            (B.cols ++ P.map Prod.fst) ++ [key] from rfl, hP3 kv]
        constructor
        · intro h
          rcases h with h | h
          · rcases (hKeysD kv).mp h with h2 | ⟨p, hp, rf, hrf, y, hy, he⟩
            · exact Or.inl h2
            · exact Or.inr ⟨p, List.mem_append_left _ hp, rf, hrf, y, hy, he⟩
          · obtain ⟨rf, hrf, y, hy, he⟩ := h
            exact Or.inr ⟨(key, frame), List.mem_append_right _ (List.mem_singleton.mpr rfl),
              rf, hrf, y, hy, he⟩
        · intro h
          rcases h with h | ⟨p, hp, rf, hrf, y, hy, he⟩
          · exact Or.inl ((hKeysD kv).mpr (Or.inl h))
          · rcases List.mem_append.mp hp with hp2 | hp2
            · exact Or.inl ((hKeysD kv).mpr (Or.inr ⟨p, hp2, rf, hrf, y, hy, he⟩))
            · rw [List.mem_singleton.mp hp2] at hrf he
              exact Or.inr ⟨rf, hrf, y, hy, he⟩
      · intro p hp r hr
        rcases List.mem_append.mp hp with hp2 | hp2
        · -- previously joined indicator columns are preserved
          have hpk : p.1 ∈ B.cols ++ P.map Prod.fst :=
            List.mem_append_right _ (List.mem_map.mpr ⟨p, hp2, rfl⟩)
          rcases hP5 r hr with ⟨r0, hr0, hcells⟩ | ⟨hknotin, hcells⟩
          · rw [show (⟨(B.cols ++ P.map Prod.fst) ++ [key], R2⟩ : DataFrame).cols =
              (B.cols ++ P.map Prod.fst) ++ [key] from rfl]
            rw [hcells p.1 hpk, hcells _ hccC1, hcells _ hyrC1]
            exact hCellsD p hp2 r0 hr0
          · rw [show (⟨(B.cols ++ P.map Prod.fst) ++ [key], R2⟩ : DataFrame).cols =
              (B.cols ++ P.map Prod.fst) ++ [key] from rfl]
            rw [hcells p.1 hpk (hk p (List.mem_append_left _ hp2)).2.2.1
              (hk p (List.mem_append_left _ hp2)).2.2.2]
            rcases specCell_na_or_covered p.2 (yearsList y0 y1)
              (getCol ((B.cols ++ P.map Prod.fst) ++ [key]) r "country_code")
              (getCol ((B.cols ++ P.map Prod.fst) ++ [key]) r "year") with hna | hcov
            · exact hna.symm
            · obtain ⟨⟨rf, hrf, hrfc⟩, ⟨y, hy, hyv⟩⟩ := hcov
              exfalso
              refine hknotin ((hKeysD _).mpr (Or.inr ⟨p, hp2, rf, hrf, y, hy, ?_⟩))
              rw [rowKey, hrfc, ← hyv]
        · -- the newly joined indicator column
          rw [List.mem_singleton.mp hp2]
          exact hP4 r hr
    have hnd2 : (((P ++ [(key, frame)]) ++ rest).map Prod.fst).Nodup := by
      rw [List.append_assoc, List.singleton_append]
      exact hnd
    have hk2 : ∀ p ∈ (P ++ [(key, frame)]) ++ rest,
        p.1 ∉ B.cols ∧ p.1 ≠ "temp" ∧ p.1 ≠ "country_code" ∧ p.1 ≠ "year" := by
      intro p hp
      rw [List.append_assoc, List.singleton_append] at hp
      exact hk p hp
    have hf2 : ∀ p ∈ (P ++ [(key, frame)]) ++ rest, "country_code" ∈ p.2.cols ∧
        (∀ y ∈ yearsList y0 y1, toString y ∈ p.2.cols) ∧
        (p.2.rows.map (fun rf => getCol p.2.cols rf "country_code")).Nodup := by
      intro p hp
      rw [List.append_assoc, List.singleton_append] at hp
      exact hf p hp
    obtain ⟨D2, hfold, hInvF⟩ := ih (P ++ [(key, frame)]) hnd2 hk2 hf2 _ hInv2
    refine ⟨D2, hfold, ?_⟩
    rwa [List.append_assoc, List.singleton_append] at hInvF

theorem join_data_spec {B : DataFrame} {L : List (String × DataFrame)} {y0 y1 : Nat}
    (hBcc : "country_code" ∈ B.cols) (hByr : "year" ∈ B.cols) (hBtemp : "temp" ∉ B.cols)
    (hBwf : ∀ r ∈ B.rows, r.length = B.cols.length)
    (hBnd : (B.rows.map (rowKey B.cols)).Nodup)
    (hLnd : (L.map Prod.fst).Nodup)
    (hLk : ∀ p ∈ L, p.1 ∉ B.cols ∧ p.1 ≠ "temp" ∧ p.1 ≠ "country_code" ∧ p.1 ≠ "year")
    (hLf : ∀ p ∈ L, "country_code" ∈ p.2.cols ∧
      (∀ y ∈ yearsList y0 y1, toString y ∈ p.2.cols) ∧
      (p.2.rows.map (fun rf => getCol p.2.cols rf "country_code")).Nodup) :
    ∃ D, join_data L B (y0, y1) = some D ∧ JInv B L (yearsList y0 y1) D := by
  have hInv0 : JInv B [] (yearsList y0 y1) B := by
    refine ⟨by simp, hBwf, hBnd, ?_, ?_⟩
    · intro kv
      simp
    · intro p hp
      simp at hp
  obtain ⟨D, hfold, hInv⟩ := join_fold_spec hBcc hByr hBtemp L [] (by simpa using hLnd)
    (by simpa using hLk) (by simpa using hLf) B hInv0
  rw [List.nil_append] at hInv
  exact ⟨D, hfold, hInv⟩

theorem filter_key_length {l : List (List Val)} {f : List Val → Val × Val} {a : Val × Val}
    (hnd : (l.map f).Nodup) (ha : a ∈ l.map f) :
    (l.filter (fun x => f x = a)).length = 1 := by
  induction l with
  | nil => simp at ha
  | cons x rest ih =>
    rw [List.filter_cons]
    rw [List.map_cons, List.nodup_cons] at hnd
    by_cases hx : f x = a
    · rw [if_pos (by simpa using hx)]
      rw [show rest.filter (fun x => f x = a) = [] from List.filter_eq_nil_iff.mpr (by
        intro b hb hpb
        simp only [decide_eq_true_eq] at hpb
        exact hnd.1 (by rw [hx, ← hpb]; exact List.mem_map.mpr ⟨b, hb, rfl⟩))]
      rfl
    · rw [if_neg (by simpa using hx)]
      refine ih hnd.2 ?_
      rcases (by simpa using ha : a = f x ∨ a ∈ rest.map f) with h | h
      · exact absurd h.symm hx
      · exact h

theorem specCell_of_code {f : DataFrame} {years : List Nat} {rf : List Val}
    (hnd : (f.rows.map (fun r => getCol f.cols r "country_code")).Nodup)
    (hrf : rf ∈ f.rows) {y : Nat} (hy : y ∈ years) :
    specCell f years (getCol f.cols rf "country_code") (Val.num y) =
      getCol f.cols rf (toString y) := by
  cases hfc : f.rows.find? (fun r =>
      getCol f.cols r "country_code" = getCol f.cols rf "country_code") with
  | none =>
    exfalso
    have := List.find?_eq_none.mp hfc rf hrf
    simp at this
  | some rf2 =>
    have hrf2 : rf2 ∈ f.rows := List.mem_of_find?_eq_some hfc
    have hce : getCol f.cols rf2 "country_code" = getCol f.cols rf "country_code" := by
      have := List.find?_some hfc
      simpa only [decide_eq_true_eq] using this
    have hre : rf2 = rf := List.inj_on_of_nodup_map hnd hrf2 hrf hce
    rw [specCell, hfc, find?_eq_some_unique hy (fun b hb => by
      simp only [decide_eq_true_eq]
      constructor
      · intro he
        exact num_nat_inj he.symm
      · intro he
        rw [he]), hre]

/-- C2: invariant of the panel built by join_data.  For every prefix of the
indicator-table sequence (well-formed per the data model: a dict of tables
with one row per country, fresh indicator names, a well-keyed base panel),
joining the prefix succeeds and the accumulating panel holds at most one
row per (country_code, year) key, exactly one row for every country of
every joined table and every year of the inclusive range; on that row the
joined indicator carries the value of the matching Indicator Table row, and
the indicator is left missing on every row whose country the table does not
contain. -/
theorem claim_C2_join_data_invariant (B : DataFrame) (dict : List (String × DataFrame))
    (y0 y1 : Nat) (i : Nat)
    (hBcc : "country_code" ∈ B.cols) (hByr : "year" ∈ B.cols) (hBtemp : "temp" ∉ B.cols)
    (hBwf : ∀ r ∈ B.rows, r.length = B.cols.length)
    (hBnd : (B.rows.map (rowKey B.cols)).Nodup)
    (hLnd : (dict.map Prod.fst).Nodup)
    (hLk : ∀ p ∈ dict, p.1 ∉ B.cols ∧ p.1 ≠ "temp" ∧ p.1 ≠ "country_code" ∧ p.1 ≠ "year")
    (hLf : ∀ p ∈ dict, "country_code" ∈ p.2.cols ∧
      (∀ y ∈ yearsList y0 y1, toString y ∈ p.2.cols) ∧
      (p.2.rows.map (fun rf => getCol p.2.cols rf "country_code")).Nodup) :
    ∃ D, join_data (dict.take i) B (y0, y1) = some D ∧
      (D.rows.map (rowKey D.cols)).Nodup ∧
      (∀ p ∈ dict.take i, ∀ rf ∈ p.2.rows, ∀ y ∈ yearsList y0 y1,
        (D.rows.filter (fun r => rowKey D.cols r =
          (getCol p.2.cols rf "country_code", Val.num y))).length = 1) ∧
      (∀ p ∈ dict.take i, ∀ r ∈ D.rows, ∀ rf ∈ p.2.rows, ∀ y ∈ yearsList y0 y1,
        rowKey D.cols r = (getCol p.2.cols rf "country_code", Val.num y) →
        getCol D.cols r p.1 = getCol p.2.cols rf (toString y)) ∧
      (∀ p ∈ dict.take i, ∀ r ∈ D.rows,
        (∀ rf ∈ p.2.rows,
          getCol p.2.cols rf "country_code" ≠ getCol D.cols r "country_code") →
        getCol D.cols r p.1 = Val.na) := by
  obtain ⟨D, hjoin, hcols, hWfD, hNdD, hKeysD, hCellsD⟩ :=
    @join_data_spec B (dict.take i) y0 y1
      hBcc hByr hBtemp hBwf hBnd
      (by rw [List.map_take]; exact hLnd.sublist (List.take_sublist i _))
      (fun p hp => hLk p (List.mem_of_mem_take hp))
      (fun p hp => hLf p (List.mem_of_mem_take hp))
  refine ⟨D, hjoin, hNdD, ?_, ?_, ?_⟩
  · intro p hp rf hrf y hy
    refine filter_key_length hNdD ?_
    exact (hKeysD _).mpr (Or.inr ⟨p, hp, rf, hrf, y, hy, rfl⟩)
  · intro p hp r hr rf hrf y hy hkey
    rw [hCellsD p hp r hr]
    have hcks : getCol D.cols r "country_code" = getCol p.2.cols rf "country_code" := by
      rw [rowKey] at hkey
      exact congrArg Prod.fst hkey
    have hyks : getCol D.cols r "year" = Val.num y := by
      rw [rowKey] at hkey
      exact congrArg Prod.snd hkey
    rw [hcks, hyks]
    exact specCell_of_code (hLf p (List.mem_of_mem_take hp)).2.2 hrf hy
  · intro p hp r hr hnone
    rw [hCellsD p hp r hr]
    exact specCell_no_code _ _ hnone

/-- Witness for C2: one single-row indicator table joined into the empty
base panel over the two-year range 2000-2001, prefix length 1. -/
theorem claim_C2_join_data_invariant_witness :
    ("country_code" ∈ (⟨["country_code", "year"], []⟩ : DataFrame).cols ∧
      "year" ∈ (⟨["country_code", "year"], []⟩ : DataFrame).cols ∧
      "temp" ∉ (⟨["country_code", "year"], []⟩ : DataFrame).cols ∧
      (∀ r ∈ (⟨["country_code", "year"], []⟩ : DataFrame).rows,
        r.length = (⟨["country_code", "year"], []⟩ : DataFrame).cols.length) ∧
      ((⟨["country_code", "year"], []⟩ : DataFrame).rows.map
        (rowKey (⟨["country_code", "year"], []⟩ : DataFrame).cols)).Nodup ∧
      (([("Pop", (⟨["country_code", "2000", "2001"],
        [[Val.str "FIN", Val.num 5, Val.num 6]]⟩ : DataFrame))].map Prod.fst)).Nodup ∧
      (∀ p ∈ [("Pop", (⟨["country_code", "2000", "2001"],
          [[Val.str "FIN", Val.num 5, Val.num 6]]⟩ : DataFrame))],
        p.1 ∉ (⟨["country_code", "year"], []⟩ : DataFrame).cols ∧
        p.1 ≠ "temp" ∧ p.1 ≠ "country_code" ∧ p.1 ≠ "year") ∧
      (∀ p ∈ [("Pop", (⟨["country_code", "2000", "2001"],
          [[Val.str "FIN", Val.num 5, Val.num 6]]⟩ : DataFrame))],
        "country_code" ∈ p.2.cols ∧
        (∀ y ∈ yearsList 2000 2001, toString y ∈ p.2.cols) ∧
        (p.2.rows.map (fun rf => getCol p.2.cols rf "country_code")).Nodup)) ∧
    (∃ D, join_data ([("Pop", (⟨["country_code", "2000", "2001"],
        [[Val.str "FIN", Val.num 5, Val.num 6]]⟩ : DataFrame))].take 1)
        ⟨["country_code", "year"], []⟩ (2000, 2001) = some D ∧
      (D.rows.map (rowKey D.cols)).Nodup ∧
      (∀ p ∈ [("Pop", (⟨["country_code", "2000", "2001"],
          [[Val.str "FIN", Val.num 5, Val.num 6]]⟩ : DataFrame))].take 1,
        ∀ rf ∈ p.2.rows, ∀ y ∈ yearsList 2000 2001,
        (D.rows.filter (fun r => rowKey D.cols r =
          (getCol p.2.cols rf "country_code", Val.num y))).length = 1) ∧
      (∀ p ∈ [("Pop", (⟨["country_code", "2000", "2001"],
          [[Val.str "FIN", Val.num 5, Val.num 6]]⟩ : DataFrame))].take 1,
        ∀ r ∈ D.rows, ∀ rf ∈ p.2.rows, ∀ y ∈ yearsList 2000 2001,
        rowKey D.cols r = (getCol p.2.cols rf "country_code", Val.num y) →
        getCol D.cols r p.1 = getCol p.2.cols rf (toString y)) ∧
      (∀ p ∈ [("Pop", (⟨["country_code", "2000", "2001"],
          [[Val.str "FIN", Val.num 5, Val.num 6]]⟩ : DataFrame))].take 1,
        ∀ r ∈ D.rows,
        (∀ rf ∈ p.2.rows,
          getCol p.2.cols rf "country_code" ≠ getCol D.cols r "country_code") →
        getCol D.cols r p.1 = Val.na)) :=
  ⟨⟨by decide, by decide, by decide, by decide, by decide, by decide, by decide, by decide⟩,
    claim_C2_join_data_invariant ⟨["country_code", "year"], []⟩
      [("Pop", ⟨["country_code", "2000", "2001"], [[Val.str "FIN", Val.num 5, Val.num 6]]⟩)]
      2000 2001 1 (by decide) (by decide) (by decide) (by decide) (by decide) (by decide)
      (by decide) (by decide)⟩

/-- C1 counterexample: two single-row indicator tables for the same country
whose year columns are disjoint (each carries only its own year), with a
year range covering both.  join_data raises a KeyError (none) while
expanding the first table over the full range, so no panel with one row per
year is returned. -/
theorem claim_C1_counterexample :
    join_data
      [("i1", ⟨["country_code", "2000"], [[Val.str "FIN", Val.num 7]]⟩),
       ("i2", ⟨["country_code", "2001"], [[Val.str "FIN", Val.num 9]]⟩)]
      ⟨["country_code", "year"], []⟩ (2000, 2001) = none := by decide

/-- C1 amended: for two single-row indicator tables for the same country
that carry a column for every year of the range (holding data on disjoint
year sets and missing values elsewhere), joined into the empty base panel,
the returned panel has exactly one row per year of the range for that
country and no other rows, no duplicate (country_code, year) keys, and on
the row of each year both indicator cells equal the corresponding source
cells, hence each indicator is populated exactly for the years its source
table had data. -/
theorem claim_C1_two_tables (k1 k2 : String) (f1cols f2cols : List String)
    (row1 row2 : List Val) (cd : Val) (y0 y1 : Nat)
    (hk1 : k1 ≠ "country_code" ∧ k1 ≠ "year" ∧ k1 ≠ "temp")
    (hk2 : k2 ≠ "country_code" ∧ k2 ≠ "year" ∧ k2 ≠ "temp")
    (hk12 : k1 ≠ k2)
    (hf1 : "country_code" ∈ f1cols) (hf2 : "country_code" ∈ f2cols)
    (hy1 : ∀ y ∈ yearsList y0 y1, toString y ∈ f1cols)
    (hy2 : ∀ y ∈ yearsList y0 y1, toString y ∈ f2cols)
    (hc1 : getCol f1cols row1 "country_code" = cd)
    (hc2 : getCol f2cols row2 "country_code" = cd) :
    ∃ D, join_data [(k1, ⟨f1cols, [row1]⟩), (k2, ⟨f2cols, [row2]⟩)]
        ⟨["country_code", "year"], []⟩ (y0, y1) = some D ∧
      (D.rows.map (rowKey D.cols)).Nodup ∧
      (∀ kv, kv ∈ D.rows.map (rowKey D.cols) ↔ ∃ y ∈ yearsList y0 y1, kv = (cd, Val.num y)) ∧
      (∀ y ∈ yearsList y0 y1,
        (D.rows.filter (fun r => rowKey D.cols r = (cd, Val.num y))).length = 1) ∧
      (∀ r ∈ D.rows, ∀ y ∈ yearsList y0 y1, rowKey D.cols r = (cd, Val.num y) →
        getCol D.cols r k1 = getCol f1cols row1 (toString y) ∧
        getCol D.cols r k2 = getCol f2cols row2 (toString y)) := by
  obtain ⟨D, hjoin, hcols, hWfD, hNdD, hKeysD, hCellsD⟩ :=
    @join_data_spec ⟨["country_code", "year"], []⟩
      [(k1, ⟨f1cols, [row1]⟩), (k2, ⟨f2cols, [row2]⟩)] y0 y1
      (by simp) (by simp) (by simp)
      (by intro r hr; simp at hr)
      (by simp)
      (by simp [hk12])
      (by
        intro p hp
        rcases List.mem_cons.mp hp with h | h
        · rw [h]
          refine ⟨?_, hk1.2.2, hk1.1, hk1.2.1⟩
          simp [hk1.1, hk1.2.1]
        · rw [List.mem_singleton.mp h]
          refine ⟨?_, hk2.2.2, hk2.1, hk2.2.1⟩
          simp [hk2.1, hk2.2.1])
      (by
        intro p hp
        rcases List.mem_cons.mp hp with h | h
        · rw [h]
          exact ⟨hf1, hy1, by simp⟩
        · rw [List.mem_singleton.mp h]
          exact ⟨hf2, hy2, by simp⟩)
  have hkeyiff : ∀ kv, kv ∈ D.rows.map (rowKey D.cols) ↔
      ∃ y ∈ yearsList y0 y1, kv = (cd, Val.num y) := by
    intro kv
    rw [hKeysD kv]
    constructor
    · intro h
      rcases h with h | ⟨p, hp, rf, hrf, y, hy, he⟩
      · simp at h
      · rcases List.mem_cons.mp hp with h2 | h2
        · rw [h2] at hrf he
          rw [List.mem_singleton.mp hrf] at he
          exact ⟨y, hy, by rw [he]; simp [hc1]⟩
        · rw [List.mem_singleton.mp h2] at hrf he
          rw [List.mem_singleton.mp hrf] at he
          exact ⟨y, hy, by rw [he]; simp [hc2]⟩
    · intro ⟨y, hy, he⟩
      refine Or.inr ⟨(k1, ⟨f1cols, [row1]⟩), List.mem_cons_self _ _,
        row1, List.mem_singleton.mpr rfl, y, hy, ?_⟩
      rw [he, hc1]
  refine ⟨D, hjoin, hNdD, hkeyiff, ?_, ?_⟩
  · intro y hy
    exact filter_key_length hNdD ((hkeyiff _).mpr ⟨y, hy, rfl⟩)
  · intro r hr y hy hkey
    have hcks : getCol D.cols r "country_code" = cd := by
      rw [rowKey] at hkey
      exact congrArg Prod.fst hkey
    have hyks : getCol D.cols r "year" = Val.num y := by
      rw [rowKey] at hkey
      exact congrArg Prod.snd hkey
    constructor
    · rw [hCellsD (k1, ⟨f1cols, [row1]⟩) (List.mem_cons_self _ _) r hr, hcks, hyks, ← hc1]
      exact specCell_of_code (by simp) (List.mem_singleton.mpr rfl) hy
    · rw [hCellsD (k2, ⟨f2cols, [row2]⟩)
        (List.mem_cons_of_mem _ (List.mem_singleton.mpr rfl)) r hr, hcks, hyks, ← hc2]
      exact specCell_of_code (by simp) (List.mem_singleton.mpr rfl) hy

/-- Witness for the amended C1: two single-row tables for FIN carrying both
year columns of the range 2000-2001 with data on disjoint years. -/
theorem claim_C1_two_tables_witness :
    (("i1" : String) ≠ "country_code" ∧ ("i1" : String) ≠ "year" ∧ ("i1" : String) ≠ "temp") ∧
    (("i2" : String) ≠ "country_code" ∧ ("i2" : String) ≠ "year" ∧ ("i2" : String) ≠ "temp") ∧
    ("i1" : String) ≠ "i2" ∧
    "country_code" ∈ ["country_code", "2000", "2001"] ∧
    (∀ y ∈ yearsList 2000 2001, toString y ∈ ["country_code", "2000", "2001"]) ∧
    getCol ["country_code", "2000", "2001"] [Val.str "FIN", Val.num 7, Val.na]
      "country_code" = Val.str "FIN" ∧
    getCol ["country_code", "2000", "2001"] [Val.str "FIN", Val.na, Val.num 9]
      "country_code" = Val.str "FIN" ∧
    (∃ D, join_data
        [("i1", ⟨["country_code", "2000", "2001"], [[Val.str "FIN", Val.num 7, Val.na]]⟩),
         ("i2", ⟨["country_code", "2000", "2001"], [[Val.str "FIN", Val.na, Val.num 9]]⟩)]
        ⟨["country_code", "year"], []⟩ (2000, 2001) = some D ∧
      (D.rows.map (rowKey D.cols)).Nodup ∧
      (∀ kv, kv ∈ D.rows.map (rowKey D.cols) ↔
        ∃ y ∈ yearsList 2000 2001, kv = (Val.str "FIN", Val.num y)) ∧
      (∀ y ∈ yearsList 2000 2001,
        (D.rows.filter (fun r => rowKey D.cols r = (Val.str "FIN", Val.num y))).length = 1) ∧
      (∀ r ∈ D.rows, ∀ y ∈ yearsList 2000 2001,
        rowKey D.cols r = (Val.str "FIN", Val.num y) →
        getCol D.cols r "i1" =
          getCol ["country_code", "2000", "2001"] [Val.str "FIN", Val.num 7, Val.na]
            (toString y) ∧
        getCol D.cols r "i2" =
          getCol ["country_code", "2000", "2001"] [Val.str "FIN", Val.na, Val.num 9]
            (toString y))) :=
  ⟨by decide, by decide, by decide, by decide, by decide, by decide, by decide,
    claim_C1_two_tables "i1" "i2" ["country_code", "2000", "2001"]
      ["country_code", "2000", "2001"] [Val.str "FIN", Val.num 7, Val.na]
      [Val.str "FIN", Val.na, Val.num 9] (Val.str "FIN") 2000 2001
      (by decide) (by decide) (by decide) (by decide) (by decide) (by decide) (by decide)
      (by decide) (by decide)⟩
